import Mathlib

/-!
# save-cloud-3ds: the HTTP transfer engine of `src/c/http.c`

A shallow embedding of `_curl_cb_header`, `_curl_cb` and `http_request`, with the
C library and libcurl as an explicit environment:

* memory blocks are lists of bytes, `NULL` is `none`; a copy or a store outside a
  block has no defined result (`none`);
* the file system is a map from paths to contents, together with a counter of
  `fwrite` calls and a log of the external calls made so far;
* the value every `fwrite` returns, whether `fopen`, `realloc` and
  `curl_easy_init` succeed, and what the transport delivers to the callbacks are
  fields of `Env`, so every theorem quantifies over them.
-/

namespace SaveCloud

/-- A byte of payload. Bytes are only copied, never computed on. -/
abbrev Byte := Nat

/-- A block of bytes. -/
abbrev Bytes := List Byte

/-- `#define DOWNLOAD_BUFFER_SIZE 512 * 1024` (http.c:14). Every use in the source
is an operand of `-`, `==`, `!=` or a whole argument, so the missing parentheses of
the macro do not change any expression. -/
def DOWNLOAD_BUFFER_SIZE : Nat := 512 * 1024

/-- Number of values of `size_t` on the 32-bit target. -/
def SIZE_MOD : Nat := 4294967296

/-- Subtraction in `size_t`: wraps around below zero. -/
def size_sub (a b : Nat) : Nat := (a + SIZE_MOD - b % SIZE_MOD) % SIZE_MOD

/-- Addition in `size_t`: wraps around at `SIZE_MOD`. -/
def size_add (a b : Nat) : Nat := (a + b) % SIZE_MOD

/-- `CURLE_OK`. -/
def CURLE_OK : Nat := 0

/-- `CURLE_WRITE_ERROR`: the transport's result when a write or header callback
returns a value different from the number of bytes it was given. -/
def CURLE_WRITE_ERROR : Nat := 23

/-- Content of a multipart part: `curl_mime_data(part, buf, len)` or
`curl_mime_filedata(part, path)`. -/
inductive MimeSource where
  | data (buf : Bytes) (len : Nat)
  | filedata (path : Option String)
  deriving DecidableEq

/-- A part added with `curl_mime_addpart` and what was set on it. -/
structure MimePart where
  name : Option String := none
  filename : Option String := none
  source : Option MimeSource := none
  deriving DecidableEq

/-- A libcurl easy handle: the options set on it, `none` where the default is
untouched. Function and data pointers are numbers. -/
structure Curl where
  url : Option String := none
  buffersize : Option Nat := none
  mimepost : Option (List MimePart) := none
  customrequest : Option String := none
  copypostfields : Option String := none
  noprogress : Option Int := none
  xferinfodata : Option Nat := none
  xferinfofunction : Option Nat := none
  cainfo : Option String := none
  ssl_verifypeer : Option Int := none
  ssl_verifyhost : Option Int := none
  useragent : Option String := none
  writefunction : Option String := none
  headerfunction : Option String := none
  followlocation : Option Int := none
  deriving DecidableEq

/-- Calls across the boundary of `http.c` recorded in the world's log: library
calls made by the program and callback invocations made by the transport. -/
inductive ExtCall where
  | fopen_wb (path : String) (ok : Bool)
  | malloc (n : Nat)
  | curl_easy_init (ok : Bool)
  | curl_easy_perform (handle : Curl)
  | header_cb (data : Bytes)
  | write_cb (data : Bytes)
  | curl_easy_cleanup
  | fwrite (path : String) (requested returned : Nat)
  | free_buffer
  | fclose (path : String)
  | remove (path : String)
  deriving DecidableEq

/-- The part of the outside world `http.c` touches. -/
structure World where
  /-- Content of each existing file. -/
  files : String → Option Bytes
  /-- Number of `fwrite` calls made so far. -/
  fwrites : Nat
  /-- External calls made so far, oldest first. -/
  log : List ExtCall

/-- One callback invocation made by the transport during `curl_easy_perform`:
the bytes handed over and whether the `realloc` inside the callback succeeds. -/
inductive CurlEvent where
  | header (data : Bytes) (alloc_ok : Bool)
  | body (data : Bytes) (alloc_ok : Bool)
  deriving DecidableEq

/-- What the program cannot control. -/
structure Env where
  /-- Whether `fopen(path, "wb")` succeeds. -/
  fopen_wb_ok : String → Bool
  /-- Value offered by the `k`-th `fwrite` when asked for `n` bytes (capped at `n`). -/
  fwrite_ret : Nat → Nat → Nat
  /-- Content of freshly allocated memory. -/
  junk : Byte
  /-- Whether `curl_easy_init` returns a handle. -/
  curl_easy_init_ok : Bool
  /-- Callback invocations the transport makes, in order, unless a callback aborts. -/
  events : List CurlEvent
  /-- Result code of the transport when no callback aborts the transfer. -/
  result : Nat
  /-- The value of `CURLINFO_RESPONSE_CODE`. -/
  response_code : Int
  /-- The function `curl_easy_strerror`. -/
  curl_easy_strerror : Nat → String

/-- `struct HttpData` (http.c:41-49). An open `FILE *` is the path it was opened on. -/
structure HttpData where
  download_file_fd : Option String
  download_buffer : Option Bytes
  current_buf_size : Nat
  size : Nat
  response : Option Bytes
  header_size : Nat
  header : Option Bytes

/-- `struct HttpResponse` (http.c:51-58). -/
structure HttpResponse where
  status : Int
  message : String
  size : Nat
  header_size : Nat
  response : Option Bytes
  header : Option Bytes

/-- `realloc(ptr, n)` when it succeeds: the old content up to `n` bytes, fresh
bytes after it. -/
def realloc (junk : Byte) (ptr : Option Bytes) (n : Nat) : Bytes :=
  match ptr with
  | none => List.replicate n junk
  | some old => old.take n ++ List.replicate (n - old.length) junk

/-- `memcpy(&dst[off], src, len src)`; undefined outside the block. -/
def memcpy (dst : Bytes) (off : Nat) (src : Bytes) : Option Bytes :=
  if off + src.length ≤ dst.length then
    some (dst.take off ++ src ++ dst.drop (off + src.length))
  else none

/-- `dst[i] = b`; undefined outside the block. -/
def store (dst : Bytes) (i : Nat) (b : Byte) : Option Bytes :=
  if i < dst.length then some (dst.set i b) else none

/-- `fwrite(ptr, 1, n, fd)`: the first `res` bytes of `ptr` reach the file, where
`res` is what the environment offers for this call, at most `n`. -/
def fwrite (env : Env) (ptr : Bytes) (n : Nat) (fd : String) (w : World) : Nat × World :=
  let res := min (env.fwrite_ret w.fwrites n) n
  (res,
    { files := fun p => if p = fd then (w.files p).map (fun c => c ++ ptr.take res) else w.files p,
      fwrites := w.fwrites + 1,
      log := w.log ++ [ExtCall.fwrite fd n res] })

/-- `_curl_cb_header` (http.c:60-74). `data` holds the `size * nmemb` bytes. -/
def _curl_cb_header (env : Env) (data : Bytes) (alloc_ok : Bool) (mem : HttpData) :
    Option (Nat × HttpData) :=
  let realsize := data.length
  if alloc_ok = false then some (0, mem)
  else do
    let ptr := realloc env.junk mem.header (mem.header_size + realsize + 1)
    let ptr ← memcpy ptr mem.header_size data
    let header_size := mem.header_size + realsize
    let ptr ← store ptr header_size 0
    some (realsize, { mem with header := some ptr, header_size := header_size })

/-- The number of bytes one pass of the copy loop moves (http.c:84-87). -/
def write_size (remain_size current_buf_size : Nat) : Nat :=
  if remain_size > size_sub DOWNLOAD_BUFFER_SIZE current_buf_size then
    size_sub DOWNLOAD_BUFFER_SIZE current_buf_size
  else remain_size

/-- Outcome of one pass of the copy loop. -/
inductive IterResult where
  | ret (res : Nat) (mem : HttpData) (w : World)
  | next (remain_size : Nat) (mem : HttpData) (w : World)

/-- One pass of the body of `while (remain_size > 0)` (http.c:84-99). -/
def curl_cb_iter (env : Env) (data : Bytes) (total_size : Nat) (fd : String)
    (remain_size : Nat) (mem : HttpData) (w : World) : Option IterResult := do
  let ws := write_size remain_size mem.current_buf_size
  let buf ← mem.download_buffer
  let buf ← memcpy buf mem.current_buf_size ((data.drop (total_size - remain_size)).take ws)
  let mem := { mem with download_buffer := some buf,
                        current_buf_size := size_add mem.current_buf_size ws }
  let remain_size := remain_size - ws
  if mem.current_buf_size = DOWNLOAD_BUFFER_SIZE then
    let (res, w) := fwrite env buf DOWNLOAD_BUFFER_SIZE fd w
    let mem := { mem with current_buf_size := 0 }
    if res ≠ DOWNLOAD_BUFFER_SIZE then
      some (IterResult.ret res mem w)
    else some (IterResult.next remain_size mem w)
  else some (IterResult.next remain_size mem w)

/-- The loop `while (remain_size > 0)` and the `return total_size` after it
(http.c:83-101); `none` when the fuel runs out or a pass is undefined. -/
def curl_cb_loop (env : Env) (data : Bytes) (total_size : Nat) (fd : String) :
    Nat → Nat → HttpData → World → Option (Nat × HttpData × World)
  | 0, _, _, _ => none
  | fuel + 1, remain_size, mem, w =>
    if remain_size > 0 then
      match curl_cb_iter env data total_size fd remain_size mem w with
      | none => none
      | some (IterResult.ret res mem w) => some (res, mem, w)
      | some (IterResult.next remain_size mem w) =>
        curl_cb_loop env data total_size fd fuel remain_size mem w
    else some (total_size, mem, w)

/-- `_curl_cb` (http.c:76-114). `data` holds the `size * nmemb` bytes. -/
def _curl_cb (env : Env) (data : Bytes) (alloc_ok : Bool) (mem : HttpData) (w : World) :
    Option (Nat × HttpData × World) :=
  match mem.download_file_fd with
  | some fd =>
    let total_size := data.length
    curl_cb_loop env data total_size fd (total_size + 2) total_size mem w
  | none =>
    let realsize := data.length
    if alloc_ok = false then some (0, mem, w)
    else do
      let ptr := realloc env.junk mem.response (mem.size + realsize + 1)
      let ptr ← memcpy ptr mem.size data
      let size := mem.size + realsize
      let ptr ← store ptr size 0
      some (realsize, { mem with response := some ptr, size := size }, w)

/-- The arguments of `http_request` (http.c:116-123); a `NULL` pointer is `none`. -/
structure Request where
  method : String
  url : String
  user_agent : Option String
  body : Option String
  file_to_upload_name : Option String
  file_to_upload_path : Option String
  data_to_upload : Option Bytes
  data_to_upload_len : Nat
  download_file_path : Option String
  ssl_verify : Bool
  progress_cb : Option Nat
  clientp : Nat
  is_follow : Int

/-- The request method and body set on a handle (http.c:162-178). -/
def curl_set_request (rq : Request) (curl : Curl) : Curl :=
  match rq.file_to_upload_name with
  | some name =>
    let field : MimePart := {}
    let field := { field with name := some name }
    let field :=
      match rq.data_to_upload with
      | some buf =>
        let field := { field with filename := rq.file_to_upload_path }
        { field with source := some (MimeSource.data buf rq.data_to_upload_len) }
      | none => { field with source := some (MimeSource.filedata rq.file_to_upload_path) }
    { curl with mimepost := some [field] }
  | none =>
    if rq.method = "POST" then
      let curl := { curl with customrequest := some "POST" }
      match rq.body with
      | some body => { curl with copypostfields := some body }
      | none => curl
    else curl

/-- The progress, TLS, user-agent, callback and redirect options set on a handle
(http.c:179-201). -/
def curl_set_transfer (rq : Request) (curl : Curl) : Curl :=
  let curl :=
    match rq.progress_cb with
    | some cb =>
      { curl with noprogress := some 0, xferinfodata := some rq.clientp,
                  xferinfofunction := some cb }
    | none => curl
  let curl :=
    if rq.ssl_verify then { curl with cainfo := some "/config/ssl/cacert.pem" }
    else { curl with ssl_verifypeer := some 0, ssl_verifyhost := some 0 }
  let curl :=
    match rq.user_agent with
    | some ua => { curl with useragent := some ua }
    | none => curl
  let curl := { curl with writefunction := some "_curl_cb",
                          headerfunction := some "_curl_cb_header" }
  if rq.is_follow ≠ 0 then { curl with followlocation := some 1 } else curl

/-- The options `http_request` sets on a handle before the exchange (http.c:160-201). -/
def curl_configure (rq : Request) (curl : Curl) : Curl :=
  let curl := { curl with url := some rq.url }
  let curl := { curl with buffersize := some (128 * 1024) }
  let curl := curl_set_request rq curl
  curl_set_transfer rq curl

/-- The method libcurl puts on the request line for a handle: the custom request
when one is set, POST when a multipart or raw body is attached, GET otherwise. -/
def wire_method (curl : Curl) : String :=
  match curl.customrequest with
  | some m => m
  | none => if curl.mimepost.isSome || curl.copypostfields.isSome then "POST" else "GET"

/-- The bytes an invocation hands over. -/
def CurlEvent.data : CurlEvent → Bytes
  | CurlEvent.header data _ => data
  | CurlEvent.body data _ => data

/-- Whether the `realloc` of an invocation succeeds. -/
def CurlEvent.alloc_ok : CurlEvent → Bool
  | CurlEvent.header _ ok => ok
  | CurlEvent.body _ ok => ok

/-- The transport invoking one callback (`CURLOPT_HEADERFUNCTION` or
`CURLOPT_WRITEFUNCTION` with the data block as user pointer); the invocation is
logged. -/
def invoke (env : Env) : CurlEvent → HttpData → World → Option (Nat × HttpData × World)
  | CurlEvent.header data ok, mem, w =>
    match _curl_cb_header env data ok mem with
    | none => none
    | some (r, mem) => some (r, mem, { w with log := w.log ++ [ExtCall.header_cb data] })
  | CurlEvent.body data ok, mem, w =>
    _curl_cb env data ok mem { w with log := w.log ++ [ExtCall.write_cb data] }

/-- The transport invoking the callbacks in order: it stops at the first callback
whose return value differs from the number of bytes handed over. Returns whether
the transfer was aborted that way. -/
def deliver (env : Env) : List CurlEvent → HttpData → World →
    Option (Bool × HttpData × World)
  | [], mem, w => some (false, mem, w)
  | ev :: rest, mem, w =>
    match invoke env ev mem w with
    | none => none
    | some (r, mem, w) =>
      if r ≠ ev.data.length then some (true, mem, w)
      else deliver env rest mem w

/-- `curl_easy_perform`: the callbacks run on `env.events`; an aborted transfer
ends with `CURLE_WRITE_ERROR`, a completed one with `env.result`. -/
def curl_easy_perform (env : Env) (curl : Curl) (mem : HttpData) (w : World) :
    Option (Nat × HttpData × World) :=
  let w := { w with log := w.log ++ [ExtCall.curl_easy_perform curl] }
  match deliver env env.events mem w with
  | none => none
  | some (aborted, mem, w) =>
    some (if aborted then CURLE_WRITE_ERROR else env.result, mem, w)

/-- `is_file_exist` (http.c:16-24). -/
def is_file_exist (path : String) (w : World) : Bool :=
  (w.files path).isSome

/-- `read_whole_file` (http.c:26-39): the block returned and `*size`; undefined
when the file cannot be opened. -/
def read_whole_file (path : String) (w : World) : Option (Bytes × Nat) :=
  match w.files path with
  | none => none
  | some content => some (content ++ [0], content.length)

/-- `remove(path)`. -/
def remove (path : String) (w : World) : World :=
  { w with files := fun p => if p = path then none else w.files p,
           log := w.log ++ [ExtCall.remove path] }

/-- The data block as initialised at http.c:130-137. -/
def data_init : HttpData :=
  { download_file_fd := none, download_buffer := none, current_buf_size := 0,
    size := 0, response := none, header_size := 0, header := none }

/-- The response as initialised at http.c:139-144; `header_size` is not
initialised there and is written at http.c:245. -/
def response_init : HttpResponse :=
  { status := -1, message := "", size := 0, header_size := 0,
    response := none, header := none }

/-- Outcome of http.c:146-155. -/
inductive OpenResult where
  | failed (w : World)
  | ok (data : HttpData) (w : World)

/-- Opening the destination file and allocating the buffer (http.c:146-155). -/
def http_open (env : Env) (rq : Request) (data : HttpData) (w : World) : OpenResult :=
  match rq.download_file_path with
  | some path =>
    let ok := env.fopen_wb_ok path
    let w := { w with log := w.log ++ [ExtCall.fopen_wb path ok] }
    if ok then
      let w := { w with files := fun p => if p = path then some [] else w.files p }
      let data := { data with download_file_fd := some path }
      let w := { w with log := w.log ++ [ExtCall.malloc DOWNLOAD_BUFFER_SIZE] }
      OpenResult.ok
        { data with download_buffer := some (List.replicate DOWNLOAD_BUFFER_SIZE env.junk) } w
    else OpenResult.failed w
  | none => OpenResult.ok data w

/-- Creating the handle and running the exchange (http.c:157-221). -/
def http_exchange (env : Env) (rq : Request) (response : HttpResponse) (data : HttpData)
    (w : World) : Option (HttpResponse × HttpData × World) :=
  let w := { w with log := w.log ++ [ExtCall.curl_easy_init env.curl_easy_init_ok] }
  if env.curl_easy_init_ok then
    let curl := curl_configure rq {}
    match curl_easy_perform env curl data w with
    | none => none
    | some (res, data, w) =>
      let response :=
        if res ≠ CURLE_OK then
          { response with status := res, message := env.curl_easy_strerror res }
        else { response with status := env.response_code }
      some (response, data, { w with log := w.log ++ [ExtCall.curl_easy_cleanup] })
  else
    some ({ response with status := -3, message := "curl_easy_init 失败" }, data, w)

/-- The end-of-call flush and close (http.c:223-232). -/
def http_flush (env : Env) (data : HttpData) (w : World) : Option (HttpData × World) :=
  match data.download_file_fd with
  | some fd =>
    match data.download_buffer with
    | none => none
    | some buf =>
      let (data, w) :=
        if data.current_buf_size > 0 then
          let (_, w) := fwrite env buf data.current_buf_size fd w
          ({ data with current_buf_size := 0 }, w)
        else (data, w)
      some ({ data with download_buffer := none, download_file_fd := none },
            { w with log := w.log ++ [ExtCall.free_buffer, ExtCall.fclose fd] })
  | none => some (data, w)

/-- The read-back of the destination file (http.c:234-241). -/
def http_recover (rq : Request) (status : Int) (data : HttpData) (w : World) :
    Option (HttpData × World) :=
  if status ≠ 200 then
    match rq.download_file_path with
    | some path =>
      if is_file_exist path w then
        match read_whole_file path w with
        | none => none
        | some (content, size) =>
          some ({ data with response := some content, size := size }, remove path w)
      else some (data, w)
    | none => some (data, w)
  else some (data, w)

/-- The chunks handed to the body callback, read off a log. -/
def delivered_body (log : List ExtCall) : List Bytes :=
  log.filterMap (fun c => match c with
    | ExtCall.write_cb data => some data
    | _ => none)

/-- The chunks handed to the header callback, read off a log. -/
def delivered_header (log : List ExtCall) : List Bytes :=
  log.filterMap (fun c => match c with
    | ExtCall.header_cb data => some data
    | _ => none)

/-- The calls logged between an earlier world and a later one. -/
def calls_since (w w' : World) : List ExtCall :=
  w'.log.drop w.log.length

/-- The body bytes of a response: the first `size` bytes of its block. -/
def HttpResponse.body (r : HttpResponse) : Bytes :=
  (r.response.getD []).take r.size

/-- The header bytes of a response: the first `header_size` bytes of its block. -/
def HttpResponse.header_bytes (r : HttpResponse) : Bytes :=
  (r.header.getD []).take r.header_size

/-- Every `fwrite` writes all the bytes it is asked to write. -/
def FullWrites (env : Env) : Prop :=
  ∀ k n, n ≤ env.fwrite_ret k n

/-- What a call of `http_request` leaves behind. -/
structure Outcome where
  /-- The pointer returned; `none` is `NULL`. -/
  result : Option HttpResponse
  /-- A response object that was allocated but neither returned nor freed. -/
  leaked : Option HttpResponse
  world : World

/-- `http_request` (http.c:116-250); `none` when some step has no defined result. -/
def http_request (env : Env) (rq : Request) (w : World) : Option Outcome :=
  match http_open env rq data_init w with
  | OpenResult.failed w =>
    some { result := none,
           leaked := some { response_init with status := -2, message := "创建文件失败" },
           world := w }
  | OpenResult.ok data w =>
    match http_exchange env rq response_init data w with
    | none => none
    | some (response, data, w) =>
      match http_flush env data w with
      | none => none
      | some (data, w) =>
        match http_recover rq response.status data w with
        | none => none
        | some (data, w) =>
          some { result := some { response with size := data.size, response := data.response,
                                                header_size := data.header_size,
                                                header := data.header },
                 leaked := none,
                 world := w }

/-! ## Vocabulary of the proofs -/

/-- The buffer after the copy of one pass of the loop. -/
def iter_buf (data : Bytes) (total_size remain_size cur : Nat) (buf : Bytes) : Bytes :=
  buf.take cur ++ (data.drop (total_size - remain_size)).take (write_size remain_size cur) ++
    buf.drop (cur + ((data.drop (total_size - remain_size)).take (write_size remain_size cur)).length)

/-- The bytes received and not yet lost: the content of the destination file
followed by the bytes waiting in the buffer. -/
def pending (fd : String) (mem : HttpData) (w : World) : Option Bytes :=
  match w.files fd, mem.download_buffer with
  | some c, some buf => some (c ++ buf.take mem.current_buf_size)
  | _, _ => none

/-- How the body callback may change the world in streaming mode: only the
destination file is touched, it is neither created nor deleted, and the log grows
by `fwrite` calls on it. -/
structure WorldStep (fd : String) (w w' : World) : Prop where
  others : ∀ p, p ≠ fd → w'.files p = w.files p
  exists_iff : (w'.files fd).isSome = (w.files fd).isSome
  log : ∃ l, w'.log = w.log ++ l ∧ ∀ c ∈ l, ∃ a b, c = ExtCall.fwrite fd a b

/-- What a run of the copy loop guarantees. -/
structure LoopPost (env : Env) (data : Bytes) (total_size remain_size : Nat) (fd : String)
    (mem : HttpData) (w : World) (r : Nat) (mem' : HttpData) (w' : World) : Prop where
  frame : ∃ buf' cur', buf'.length = DOWNLOAD_BUFFER_SIZE ∧ cur' ≤ DOWNLOAD_BUFFER_SIZE ∧
    (mem.current_buf_size < DOWNLOAD_BUFFER_SIZE ∨ 0 < remain_size →
      cur' < DOWNLOAD_BUFFER_SIZE) ∧
    mem' = { mem with download_buffer := some buf', current_buf_size := cur' }
  world : WorldStep fd w w'
  full : FullWrites env → r = total_size ∧
    pending fd mem' w' =
      (pending fd mem w).map (fun c => c ++ data.drop (total_size - remain_size))

/-- A growable block with its logical length: `NULL` with length 0, or a block one
byte longer than the logical length whose last byte is 0. -/
def BlockOk (blk : Option Bytes) (n : Nat) : Prop :=
  match blk with
  | none => n = 0
  | some b => b.length = n + 1 ∧ b[n]? = some 0

/-- The logical content of a growable block. -/
def block_bytes (blk : Option Bytes) (n : Nat) : Bytes :=
  (blk.getD []).take n

/-- Allocation never fails during the exchange. -/
def AllocsOk (evs : List CurlEvent) : Prop :=
  ∀ e ∈ evs, e.alloc_ok = true

/-- The header chunks of a list of callback invocations. -/
def header_chunks (evs : List CurlEvent) : List Bytes :=
  evs.filterMap (fun e => match e with
    | CurlEvent.header data _ => some data
    | _ => none)

/-- The body chunks of a list of callback invocations. -/
def body_chunks (evs : List CurlEvent) : List Bytes :=
  evs.filterMap (fun e => match e with
    | CurlEvent.body data _ => some data
    | _ => none)

/-- The invariant of the data block during a call: both growable blocks are
well formed, the cursor is below the capacity, and in streaming mode the buffer
is a block of `DOWNLOAD_BUFFER_SIZE` bytes. -/
structure MemInv (mem : HttpData) : Prop where
  header : BlockOk mem.header mem.header_size
  response : BlockOk mem.response mem.size
  cursor : mem.current_buf_size < DOWNLOAD_BUFFER_SIZE
  buffer : ∀ fd, mem.download_file_fd = some fd →
    ∃ buf, mem.download_buffer = some buf ∧ buf.length = DOWNLOAD_BUFFER_SIZE

/-- What a run of callbacks guarantees, from a state `mem`, `w` to a state `mem'`,
`w'` with `l` the calls logged in between; `clean` says that no allocation failed
during the run. -/
structure Post (env : Env) (clean : Prop) (mem : HttpData) (w : World) (mem' : HttpData)
    (w' : World) (l : List ExtCall) : Prop where
  log : w'.log = w.log ++ l
  fd_eq : mem'.download_file_fd = mem.download_file_fd
  inv : MemInv mem'
  hdr : clean → block_bytes mem'.header mem'.header_size
    = block_bytes mem.header mem.header_size ++ (delivered_header l).flatten
  hdr_none : delivered_header l = [] →
    mem'.header = mem.header ∧ mem'.header_size = mem.header_size
  hdr_some : clean → delivered_header l ≠ [] → mem'.header ≠ none
  mem_frame : mem.download_file_fd = none →
    w'.files = w.files ∧ mem'.current_buf_size = mem.current_buf_size ∧
      mem'.download_buffer = mem.download_buffer
  mem_none : mem.download_file_fd = none → delivered_body l = [] →
    mem'.response = mem.response ∧ mem'.size = mem.size
  mem_body : mem.download_file_fd = none → clean →
    block_bytes mem'.response mem'.size
      = block_bytes mem.response mem.size ++ (delivered_body l).flatten ∧
    (delivered_body l ≠ [] → mem'.response ≠ none)
  file_frame : ∀ fd, mem.download_file_fd = some fd →
    (∀ p, p ≠ fd → w'.files p = w.files p) ∧
    (w'.files fd).isSome = (w.files fd).isSome ∧
    mem'.response = mem.response ∧ mem'.size = mem.size
  file_full : ∀ fd, mem.download_file_fd = some fd → FullWrites env →
    pending fd mem' w' = (pending fd mem w).map (fun c => c ++ (delivered_body l).flatten)

/-- The response after the exchange, given the result of `curl_easy_perform`
(http.c:206-211). -/
def response_of (env : Env) (response : HttpResponse) (res : Nat) : HttpResponse :=
  if res ≠ CURLE_OK then
    { response with status := res, message := env.curl_easy_strerror res }
  else { response with status := env.response_code }

/-- The data block after the destination file is opened and the buffer allocated. -/
def data_open (env : Env) (path : String) : HttpData :=
  { data_init with
    download_file_fd := some path,
    download_buffer := some (List.replicate DOWNLOAD_BUFFER_SIZE env.junk) }

/-- The world after the destination file is opened and the buffer allocated. -/
def world_open (path : String) (w : World) : World :=
  { files := fun p => if p = path then some [] else w.files p,
    fwrites := w.fwrites,
    log := w.log ++ [ExtCall.fopen_wb path true] ++ [ExtCall.malloc DOWNLOAD_BUFFER_SIZE] }

/-- The outcome of a streaming call, given the response `resp` and data block `m₁`
after the exchange, the world `w₂` after the flush and the content `c` of the
destination file at that point. -/
def outcome_file (path : String) (resp : HttpResponse) (m₁ : HttpData) (w₂ : World)
    (c : Bytes) : Outcome :=
  if resp.status ≠ 200 then
    { result := some { resp with size := c.length, response := some (c ++ [0]),
                                 header_size := m₁.header_size, header := m₁.header },
      leaked := none, world := remove path w₂ }
  else
    { result := some { resp with size := 0, response := none,
                                 header_size := m₁.header_size, header := m₁.header },
      leaked := none, world := w₂ }

/-- An exchange that delivers one header line and a body in two chunks and ends
with status 200. -/
def env_ok : Env :=
  { fopen_wb_ok := fun _ => true,
    fwrite_ret := fun _ n => n,
    junk := 170,
    curl_easy_init_ok := true,
    events := [CurlEvent.header [72, 84] true, CurlEvent.body [1, 2, 3] true,
      CurlEvent.body [4] true],
    result := 0,
    response_code := 200,
    curl_easy_strerror := fun _ => "error" }

/-- A plain GET without destination file. -/
def rq_get : Request :=
  { method := "GET", url := "http://host/x", user_agent := none, body := none,
    file_to_upload_name := none, file_to_upload_path := none, data_to_upload := none,
    data_to_upload_len := 0, download_file_path := none, ssl_verify := false,
    progress_cb := none, clientp := 0, is_follow := 0 }

/-- A GET streamed to the file `out.bin`. -/
def rq_download : Request :=
  { rq_get with download_file_path := some "out.bin" }

/-- A world without files in which nothing has happened yet. -/
def world_empty : World :=
  { files := fun _ => none, fwrites := 0, log := [] }

/-- The bytes of the text `{"error":"not found"}`. -/
def json_not_found : Bytes :=
  "\x7b\"error\":\"not found\"\x7d".toList.map Char.toNat

/-- An exchange answering 404 with the body `{"error":"not found"}`. -/
def env_404 : Env :=
  { fopen_wb_ok := fun _ => true,
    fwrite_ret := fun _ n => n,
    junk := 170,
    curl_easy_init_ok := true,
    events := [CurlEvent.header [72, 84] true, CurlEvent.body json_not_found true],
    result := 0,
    response_code := 404,
    curl_easy_strerror := fun _ => "error" }

/-- An exchange whose body fills the buffer exactly, in a chunk of
`DOWNLOAD_BUFFER_SIZE - 100` bytes and a chunk of 100 bytes, on a disk where every
`fwrite` writes 100 bytes only; the server answers 200. -/
def env_short : Env :=
  { fopen_wb_ok := fun _ => true,
    fwrite_ret := fun _ _ => 100,
    junk := 170,
    curl_easy_init_ok := true,
    events := [CurlEvent.body (List.replicate (DOWNLOAD_BUFFER_SIZE - 100) 7) true,
      CurlEvent.body (List.replicate 100 9) true],
    result := 0,
    response_code := 200,
    curl_easy_strerror := fun _ => "error" }

/-- A PUT with a body, without upload and without destination file. -/
def rq_put : Request :=
  { rq_get with method := "PUT", body := some "payload" }

/-- An environment in which `curl_easy_init` returns no handle. -/
def env_no_handle : Env :=
  { env_ok with curl_easy_init_ok := false }

/-- An exchange answering 200 with a header line and an empty body. -/
def env_empty_body : Env :=
  { env_ok with events := [CurlEvent.header [72, 84] true] }

/-- The bytes `curl_mime_data(part, buf, len)` copies into the part. -/
def MimeSource.copied : MimeSource → Option Bytes
  | MimeSource.data buf len => some (buf.take len)
  | MimeSource.filedata _ => none

/-- A POST with a body and an in-memory upload: field `f`, buffer `{1, 2, 3}`,
filename `x.bin`. -/
def rq_upload : Request :=
  { rq_get with method := "POST", body := some "ignored", file_to_upload_name := some "f",
                file_to_upload_path := some "x.bin", data_to_upload := some [1, 2, 3],
                data_to_upload_len := 3 }

/-- An exchange that fails to connect: no callback is invoked and the transport
ends with code 7. -/
def env_connect_failed : Env :=
  { env_ok with events := [], result := 7 }

/-- The cursor of the data block an outcome of one pass of the copy loop carries. -/
def IterResult.cursor : IterResult → Nat
  | IterResult.ret _ mem _ => mem.current_buf_size
  | IterResult.next _ mem _ => mem.current_buf_size

/-! ## Lemmas -/

theorem write_size_eq (remain cur : Nat) (h : cur ≤ DOWNLOAD_BUFFER_SIZE) :
    write_size remain cur = min remain (DOWNLOAD_BUFFER_SIZE - cur) := by
  unfold write_size size_sub SIZE_MOD
  unfold DOWNLOAD_BUFFER_SIZE at *
  split <;> omega

theorem size_add_eq (a b : Nat) (h : a + b ≤ DOWNLOAD_BUFFER_SIZE) : size_add a b = a + b := by
  unfold size_add SIZE_MOD
  unfold DOWNLOAD_BUFFER_SIZE at h
  omega

theorem curl_cb_iter_eq (env : Env) (data : Bytes) (total_size : Nat) (fd : String)
    (remain_size : Nat) (mem : HttpData) (w : World) (buf : Bytes)
    (hbuf : mem.download_buffer = some buf) (hlen : buf.length = DOWNLOAD_BUFFER_SIZE)
    (hcur : mem.current_buf_size ≤ DOWNLOAD_BUFFER_SIZE) :
    curl_cb_iter env data total_size fd remain_size mem w =
      some (
        if mem.current_buf_size + write_size remain_size mem.current_buf_size
            = DOWNLOAD_BUFFER_SIZE then
          if (fwrite env (iter_buf data total_size remain_size mem.current_buf_size buf)
                DOWNLOAD_BUFFER_SIZE fd w).1 ≠ DOWNLOAD_BUFFER_SIZE then
            IterResult.ret
              (fwrite env (iter_buf data total_size remain_size mem.current_buf_size buf)
                DOWNLOAD_BUFFER_SIZE fd w).1
              { mem with
                download_buffer :=
                  some (iter_buf data total_size remain_size mem.current_buf_size buf),
                current_buf_size := 0 }
              (fwrite env (iter_buf data total_size remain_size mem.current_buf_size buf)
                DOWNLOAD_BUFFER_SIZE fd w).2
          else
            IterResult.next (remain_size - write_size remain_size mem.current_buf_size)
              { mem with
                download_buffer :=
                  some (iter_buf data total_size remain_size mem.current_buf_size buf),
                current_buf_size := 0 }
              (fwrite env (iter_buf data total_size remain_size mem.current_buf_size buf)
                DOWNLOAD_BUFFER_SIZE fd w).2
        else
          IterResult.next (remain_size - write_size remain_size mem.current_buf_size)
            { mem with
              download_buffer :=
                some (iter_buf data total_size remain_size mem.current_buf_size buf),
              current_buf_size :=
                mem.current_buf_size + write_size remain_size mem.current_buf_size }
            w) := by
  have hws := write_size_eq remain_size mem.current_buf_size hcur
  have hle : mem.current_buf_size + write_size remain_size mem.current_buf_size
      ≤ DOWNLOAD_BUFFER_SIZE := by rw [hws]; omega
  have hplen : ((data.drop (total_size - remain_size)).take
      (write_size remain_size mem.current_buf_size)).length
        ≤ write_size remain_size mem.current_buf_size := by
    simp [List.length_take]
  have hin : mem.current_buf_size + ((data.drop (total_size - remain_size)).take
      (write_size remain_size mem.current_buf_size)).length ≤ buf.length := by omega
  unfold curl_cb_iter
  simp only [hbuf, Option.bind_eq_bind, Option.some_bind, memcpy, if_pos hin, size_add_eq _ _ hle]
  by_cases h1 : mem.current_buf_size + write_size remain_size mem.current_buf_size
      = DOWNLOAD_BUFFER_SIZE
  · simp only [h1, if_true, iter_buf]
    split <;> rfl
  · simp only [h1, if_false, iter_buf]

theorem worldStep_refl (fd : String) (w : World) : WorldStep fd w w :=
  ⟨fun _ _ => rfl, rfl, [], by simp, by simp⟩

theorem worldStep_trans {fd : String} {w₁ w₂ w₃ : World}
    (h₁ : WorldStep fd w₁ w₂) (h₂ : WorldStep fd w₂ w₃) : WorldStep fd w₁ w₃ := by
  obtain ⟨l₁, e₁, f₁⟩ := h₁.log
  obtain ⟨l₂, e₂, f₂⟩ := h₂.log
  refine ⟨fun p hp => (h₂.others p hp).trans (h₁.others p hp),
    h₂.exists_iff.trans h₁.exists_iff, l₁ ++ l₂, by rw [e₂, e₁, List.append_assoc], ?_⟩
  intro c hc
  rcases List.mem_append.mp hc with h | h
  · exact f₁ c h
  · exact f₂ c h

theorem fwrite_worldStep (env : Env) (ptr : Bytes) (n : Nat) (fd : String) (w : World) :
    WorldStep fd w (fwrite env ptr n fd w).2 := by
  refine ⟨?_, ?_, [ExtCall.fwrite fd n (min (env.fwrite_ret w.fwrites n) n)], rfl, ?_⟩
  · intro p hp
    simp [fwrite, hp]
  · simp [fwrite]
  · intro c hc
    simp only [List.mem_singleton] at hc
    exact ⟨_, _, hc⟩

theorem fwrite_fst (env : Env) (ptr : Bytes) (n : Nat) (fd : String) (w : World) :
    (fwrite env ptr n fd w).1 = min (env.fwrite_ret w.fwrites n) n := rfl

theorem fwrite_fst_full (env : Env) (h : FullWrites env) (ptr : Bytes) (n : Nat) (fd : String)
    (w : World) : (fwrite env ptr n fd w).1 = n := by
  rw [fwrite_fst]
  exact Nat.min_eq_right (h _ _)

theorem fwrite_files_full (env : Env) (h : FullWrites env) (ptr : Bytes) (n : Nat)
    (fd : String) (w : World) :
    (fwrite env ptr n fd w).2.files fd = (w.files fd).map (fun c => c ++ ptr.take n) := by
  have := fwrite_fst_full env h ptr n fd w
  simp only [fwrite] at this ⊢
  simp [this]

theorem iter_buf_length (data : Bytes) (total_size remain_size cur : Nat) (buf : Bytes)
    (hlen : buf.length = DOWNLOAD_BUFFER_SIZE) (hcur : cur ≤ DOWNLOAD_BUFFER_SIZE) :
    (iter_buf data total_size remain_size cur buf).length = DOWNLOAD_BUFFER_SIZE := by
  have hws := write_size_eq remain_size cur hcur
  simp only [iter_buf, List.length_append, List.length_take, List.length_drop]
  omega

theorem piece_length (data : Bytes) (total_size remain_size cur : Nat)
    (hcur : cur ≤ DOWNLOAD_BUFFER_SIZE) (htot : total_size = data.length)
    (hrem : remain_size ≤ total_size) :
    ((data.drop (total_size - remain_size)).take (write_size remain_size cur)).length
      = write_size remain_size cur := by
  have hws := write_size_eq remain_size cur hcur
  simp only [List.length_take, List.length_drop]
  omega

theorem iter_buf_take (data : Bytes) (total_size remain_size cur : Nat) (buf : Bytes)
    (hlen : buf.length = DOWNLOAD_BUFFER_SIZE) (hcur : cur ≤ DOWNLOAD_BUFFER_SIZE)
    (htot : total_size = data.length) (hrem : remain_size ≤ total_size) :
    (iter_buf data total_size remain_size cur buf).take (cur + write_size remain_size cur)
      = buf.take cur ++ (data.drop (total_size - remain_size)).take (write_size remain_size cur) := by
  have hp := piece_length data total_size remain_size cur hcur htot hrem
  have hl : (buf.take cur ++
      (data.drop (total_size - remain_size)).take (write_size remain_size cur)).length
        = cur + write_size remain_size cur := by
    rw [List.length_append, hp, List.length_take]
    omega
  unfold iter_buf
  rw [← hl, List.take_left]

theorem piece_append (data : Bytes) (total_size remain_size ws : Nat)
    (hws : ws ≤ remain_size) (hrem : remain_size ≤ total_size) :
    (data.drop (total_size - remain_size)).take ws ++ data.drop (total_size - (remain_size - ws))
      = data.drop (total_size - remain_size) := by
  have h : total_size - (remain_size - ws) = (total_size - remain_size) + ws := by omega
  rw [h, ← List.drop_drop, List.take_append_drop]

theorem cap_eq : DOWNLOAD_BUFFER_SIZE = 524288 := rfl

theorem curl_cb_loop_spec (env : Env) (data : Bytes) (total_size : Nat) (fd : String)
    (htot : total_size = data.length) :
    ∀ (fuel remain_size : Nat) (mem : HttpData) (w : World) (buf : Bytes),
      mem.download_buffer = some buf → buf.length = DOWNLOAD_BUFFER_SIZE →
      mem.current_buf_size ≤ DOWNLOAD_BUFFER_SIZE → remain_size ≤ total_size →
      (remain_size + 2 ≤ fuel ∨
        (mem.current_buf_size < DOWNLOAD_BUFFER_SIZE ∧ remain_size + 1 ≤ fuel)) →
      ∃ r mem' w', curl_cb_loop env data total_size fd fuel remain_size mem w = some (r, mem', w') ∧
        LoopPost env data total_size remain_size fd mem w r mem' w' := by
  intro fuel
  induction fuel with
  | zero => intro remain_size mem w buf _ _ _ _ hf; omega
  | succ fuel ih =>
    intro remain_size mem w buf hbuf hlen hcur hrem hf
    obtain ⟨mfd, mbuf, cur, msize, mresp, mhs, mhdr⟩ := mem
    dsimp only at hbuf hcur hf
    subst hbuf
    by_cases hr : remain_size > 0
    · have hws := write_size_eq remain_size cur hcur
      have hblen := iter_buf_length data total_size remain_size cur buf hlen hcur
      have htake := iter_buf_take data total_size remain_size cur buf hlen hcur htot hrem
      have hpa := piece_append data total_size remain_size
        (write_size remain_size cur) (by omega) hrem
      have hws1 : cur < DOWNLOAD_BUFFER_SIZE → 0 < write_size remain_size cur := by
        intro h; omega
      have hws2 : write_size remain_size cur ≤ remain_size := by omega
      have hws3 : cur + write_size remain_size cur ≤ DOWNLOAD_BUFFER_SIZE := by omega
      have hcap : 0 < DOWNLOAD_BUFFER_SIZE := by decide
      have hiter := curl_cb_iter_eq env data total_size fd remain_size
        ⟨mfd, some buf, cur, msize, mresp, mhs, mhdr⟩ w buf rfl hlen hcur
      dsimp only at hiter
      simp only [curl_cb_loop, if_pos hr, hiter]
      by_cases h1 : cur + write_size remain_size cur = DOWNLOAD_BUFFER_SIZE
      · simp only [if_pos h1]
        by_cases h2 : (fwrite env (iter_buf data total_size remain_size cur buf)
            DOWNLOAD_BUFFER_SIZE fd w).1 ≠ DOWNLOAD_BUFFER_SIZE
        · simp only [if_pos h2]
          exact ⟨_, _, _, rfl, ⟨_, 0, hblen, Nat.zero_le _, fun _ => hcap, rfl⟩,
            fwrite_worldStep _ _ _ _ _,
            fun hfull => absurd (fwrite_fst_full env hfull _ _ _ _) h2⟩
        · simp only [if_neg h2]
          obtain ⟨r, mem', w', he, hpost⟩ := ih
            (remain_size - write_size remain_size cur)
            { download_file_fd := mfd,
              download_buffer := some (iter_buf data total_size remain_size cur buf),
              current_buf_size := 0, size := msize, response := mresp, header_size := mhs,
              header := mhdr }
            (fwrite env (iter_buf data total_size remain_size cur buf)
              DOWNLOAD_BUFFER_SIZE fd w).2
            _ rfl hblen (Nat.zero_le _) (by omega)
            (Or.inr ⟨hcap, by
              rcases hf with hf | hf
              · omega
              · have := hws1 hf.1
                omega⟩)
          refine ⟨r, mem', w', he, ?_, worldStep_trans (fwrite_worldStep _ _ _ _ _) hpost.world, ?_⟩
          · obtain ⟨b', c', hb', hc', hc'', hm⟩ := hpost.frame
            exact ⟨b', c', hb', hc', fun _ => hc'' (Or.inl hcap), by rw [hm]⟩
          · intro hfull
            obtain ⟨hres, hpend⟩ := hpost.full hfull
            refine ⟨hres, ?_⟩
            rw [hpend]
            simp only [pending, fwrite_files_full env hfull]
            cases hfile : w.files fd with
            | none => rfl
            | some c =>
              simp only [Option.map_some', List.take_zero, List.append_nil]
              rw [← h1, htake]
              simp only [List.append_assoc]
              rw [hpa]
      · simp only [if_neg h1]
        have hlt : cur + write_size remain_size cur < DOWNLOAD_BUFFER_SIZE := by omega
        have hclt : cur < DOWNLOAD_BUFFER_SIZE := by omega
        obtain ⟨r, mem', w', he, hpost⟩ := ih
          (remain_size - write_size remain_size cur)
          { download_file_fd := mfd,
            download_buffer := some (iter_buf data total_size remain_size cur buf),
            current_buf_size := cur + write_size remain_size cur, size := msize,
            response := mresp, header_size := mhs, header := mhdr }
          w _ rfl hblen hws3 (by omega)
          (Or.inr ⟨hlt, by
            have := hws1 hclt
            rcases hf with hf | hf <;> omega⟩)
        refine ⟨r, mem', w', he, ?_, hpost.world, ?_⟩
        · obtain ⟨b', c', hb', hc', hc'', hm⟩ := hpost.frame
          exact ⟨b', c', hb', hc', fun _ => hc'' (Or.inl hlt), by rw [hm]⟩
        · intro hfull
          obtain ⟨hres, hpend⟩ := hpost.full hfull
          refine ⟨hres, ?_⟩
          rw [hpend]
          simp only [pending]
          cases hfile : w.files fd with
          | none => rfl
          | some c =>
            simp only [Option.map_some']
            rw [htake]
            simp only [List.append_assoc]
            rw [hpa]
    · have hr0 : remain_size = 0 := by omega
      subst hr0
      simp only [curl_cb_loop, gt_iff_lt, lt_self_iff_false, if_false]
      refine ⟨_, _, _, rfl, ⟨buf, cur, hlen, hcur, ?_, rfl⟩, worldStep_refl _ _, ?_⟩
      · intro h
        rcases h with h | h
        · exact h
        · omega
      · intro _
        refine ⟨rfl, ?_⟩
        rw [Nat.sub_zero, htot, List.drop_length]
        simp

theorem realloc_length (junk : Byte) (blk : Option Bytes) (n : Nat) :
    (realloc junk blk n).length = n := by
  cases blk with
  | none => simp [realloc]
  | some b =>
    simp only [realloc, List.length_append, List.length_take, List.length_replicate]
    omega

theorem realloc_take (junk : Byte) (blk : Option Bytes) (n m : Nat) (h : BlockOk blk n) :
    (realloc junk blk (n + m + 1)).take n = block_bytes blk n := by
  cases blk with
  | none =>
    simp only [BlockOk] at h
    subst h
    simp [block_bytes]
  | some b =>
    simp only [BlockOk] at h
    simp only [realloc, block_bytes, Option.getD_some]
    rw [List.take_append_of_le_length (by simp only [List.length_take]; omega), List.take_take]
    congr 1
    omega

theorem grow_spec (junk : Byte) (blk : Option Bytes) (n : Nat) (data : Bytes)
    (h : BlockOk blk n) :
    ∃ blk', (memcpy (realloc junk blk (n + data.length + 1)) n data).bind
        (fun p => store p (n + data.length) 0) = some blk' ∧
      BlockOk (some blk') (n + data.length) ∧
      block_bytes (some blk') (n + data.length) = block_bytes blk n ++ data := by
  have hl := realloc_length junk blk (n + data.length + 1)
  have ht := realloc_take junk blk n data.length h
  have hin : n + data.length ≤ (realloc junk blk (n + data.length + 1)).length := by omega
  have hl1 : (List.take n (realloc junk blk (n + data.length + 1)) ++ data).length
      = n + data.length := by
    rw [List.length_append, List.length_take]; omega
  have hl2 : (List.take n (realloc junk blk (n + data.length + 1)) ++ data ++
      List.drop (n + data.length) (realloc junk blk (n + data.length + 1))).length
        = n + data.length + 1 := by
    rw [List.length_append, hl1, List.length_drop]; omega
  simp only [memcpy, if_pos hin, Option.some_bind, store, hl2, Nat.lt_succ_self, if_true]
  refine ⟨_, rfl, ⟨by simp only [List.length_set, hl2], ?_⟩, ?_⟩
  · rw [List.getElem?_set_self (by omega)]
  · simp only [block_bytes, Option.getD_some]
    rw [List.set_take, List.take_left' hl1, List.set_eq_of_length_le (by omega), ht]
    rfl

theorem delivered_body_append (a b : List ExtCall) :
    delivered_body (a ++ b) = delivered_body a ++ delivered_body b := by
  simp [delivered_body, List.filterMap_append]

theorem delivered_header_append (a b : List ExtCall) :
    delivered_header (a ++ b) = delivered_header a ++ delivered_header b := by
  simp [delivered_header, List.filterMap_append]

theorem delivered_body_fwrites (fd : String) (l : List ExtCall)
    (h : ∀ c ∈ l, ∃ a b, c = ExtCall.fwrite fd a b) : delivered_body l = [] := by
  induction l with
  | nil => rfl
  | cons c l ih =>
    obtain ⟨a, b, hc⟩ := h c (List.mem_cons_self _ _)
    subst hc
    simpa [delivered_body] using ih (fun c hc => h c (List.mem_cons_of_mem _ hc))

theorem delivered_header_fwrites (fd : String) (l : List ExtCall)
    (h : ∀ c ∈ l, ∃ a b, c = ExtCall.fwrite fd a b) : delivered_header l = [] := by
  induction l with
  | nil => rfl
  | cons c l ih =>
    obtain ⟨a, b, hc⟩ := h c (List.mem_cons_self _ _)
    subst hc
    simpa [delivered_header] using ih (fun c hc => h c (List.mem_cons_of_mem _ hc))

theorem curl_cb_header_fail (env : Env) (data : Bytes) (mem : HttpData) :
    _curl_cb_header env data false mem = some (0, mem) := rfl

theorem curl_cb_header_ok (env : Env) (data : Bytes) (mem : HttpData)
    (h : BlockOk mem.header mem.header_size) :
    ∃ blk', _curl_cb_header env data true mem =
        some (data.length,
          { mem with header := some blk', header_size := mem.header_size + data.length }) ∧
      BlockOk (some blk') (mem.header_size + data.length) ∧
      block_bytes (some blk') (mem.header_size + data.length)
        = block_bytes mem.header mem.header_size ++ data := by
  obtain ⟨blk', he, hok, hb⟩ := grow_spec env.junk mem.header mem.header_size data h
  refine ⟨blk', ?_, hok, hb⟩
  simp only [_curl_cb_header, Bool.true_eq_false, if_false, Option.bind_eq_bind] at he ⊢
  cases hm : memcpy (realloc env.junk mem.header (mem.header_size + data.length + 1))
      mem.header_size data with
  | none => rw [hm] at he; simp at he
  | some p =>
    rw [hm] at he
    simp only [Option.some_bind] at he ⊢
    rw [he]
    rfl

theorem curl_cb_memory_fail (env : Env) (data : Bytes) (mem : HttpData) (w : World)
    (hfd : mem.download_file_fd = none) :
    _curl_cb env data false mem w = some (0, mem, w) := by
  simp [_curl_cb, hfd]

theorem curl_cb_memory_ok (env : Env) (data : Bytes) (mem : HttpData) (w : World)
    (hfd : mem.download_file_fd = none) (h : BlockOk mem.response mem.size) :
    ∃ blk', _curl_cb env data true mem w =
        some (data.length,
          { mem with response := some blk', size := mem.size + data.length }, w) ∧
      BlockOk (some blk') (mem.size + data.length) ∧
      block_bytes (some blk') (mem.size + data.length)
        = block_bytes mem.response mem.size ++ data := by
  obtain ⟨blk', he, hok, hb⟩ := grow_spec env.junk mem.response mem.size data h
  refine ⟨blk', ?_, hok, hb⟩
  simp only [_curl_cb, hfd, Bool.true_eq_false, if_false, Option.bind_eq_bind] at he ⊢
  cases hm : memcpy (realloc env.junk mem.response (mem.size + data.length + 1))
      mem.size data with
  | none => rw [hm] at he; simp at he
  | some p =>
    rw [hm] at he
    simp only [Option.some_bind] at he ⊢
    rw [he]
    rfl

theorem curl_cb_file (env : Env) (data : Bytes) (ok : Bool) (mem : HttpData) (w : World)
    (fd : String) (buf : Bytes) (hfd : mem.download_file_fd = some fd)
    (hbuf : mem.download_buffer = some buf) (hlen : buf.length = DOWNLOAD_BUFFER_SIZE)
    (hcur : mem.current_buf_size ≤ DOWNLOAD_BUFFER_SIZE) :
    ∃ r mem' w', _curl_cb env data ok mem w = some (r, mem', w') ∧
      LoopPost env data data.length data.length fd mem w r mem' w' := by
  simp only [_curl_cb, hfd]
  exact curl_cb_loop_spec env data data.length fd rfl (data.length + 2) data.length mem w buf
    hbuf hlen hcur (Nat.le_refl _) (Or.inl (Nat.le_refl _))

theorem post_refl (env : Env) (clean : Prop) (mem : HttpData) (w : World) (h : MemInv mem) :
    Post env clean mem w mem w [] where
  log := by simp
  fd_eq := rfl
  inv := h
  hdr := by intro _; simp [delivered_header]
  hdr_none := fun _ => ⟨rfl, rfl⟩
  hdr_some := by intro _ h; simp [delivered_header] at h
  mem_frame := fun _ => ⟨rfl, rfl, rfl⟩
  mem_none := fun _ _ => ⟨rfl, rfl⟩
  mem_body := by intro _ _; simp [delivered_body]
  file_frame := fun _ _ => ⟨fun _ _ => rfl, rfl, rfl, rfl⟩
  file_full := by
    intro fd _ _
    simp [delivered_body]

theorem post_trans {env : Env} {clean : Prop} {m₁ m₂ m₃ : HttpData} {w₁ w₂ w₃ : World}
    {l₁ l₂ : List ExtCall} (h₁ : Post env clean m₁ w₁ m₂ w₂ l₁)
    (h₂ : Post env clean m₂ w₂ m₃ w₃ l₂) : Post env clean m₁ w₁ m₃ w₃ (l₁ ++ l₂) where
  log := by rw [h₂.log, h₁.log, List.append_assoc]
  fd_eq := h₂.fd_eq.trans h₁.fd_eq
  inv := h₂.inv
  hdr := by
    intro hc
    rw [h₂.hdr hc, h₁.hdr hc, delivered_header_append, List.flatten_append, List.append_assoc]
  hdr_none := by
    intro h
    rw [delivered_header_append, List.append_eq_nil] at h
    obtain ⟨a₁, b₁⟩ := h₁.hdr_none h.1
    obtain ⟨a₂, b₂⟩ := h₂.hdr_none h.2
    exact ⟨a₂.trans a₁, b₂.trans b₁⟩
  hdr_some := by
    intro hc h
    by_cases h2 : delivered_header l₂ = []
    · rw [(h₂.hdr_none h2).1]
      apply h₁.hdr_some hc
      intro h1
      exact h (by rw [delivered_header_append, h1, h2]; rfl)
    · exact h₂.hdr_some hc h2
  mem_frame := by
    intro hfd
    obtain ⟨a₁, b₁, c₁⟩ := h₁.mem_frame hfd
    obtain ⟨a₂, b₂, c₂⟩ := h₂.mem_frame (h₁.fd_eq.trans hfd)
    exact ⟨a₂.trans a₁, b₂.trans b₁, c₂.trans c₁⟩
  mem_none := by
    intro hfd h
    rw [delivered_body_append, List.append_eq_nil] at h
    obtain ⟨a₁, b₁⟩ := h₁.mem_none hfd h.1
    obtain ⟨a₂, b₂⟩ := h₂.mem_none (h₁.fd_eq.trans hfd) h.2
    exact ⟨a₂.trans a₁, b₂.trans b₁⟩
  mem_body := by
    intro hfd hc
    obtain ⟨a₁, b₁⟩ := h₁.mem_body hfd hc
    obtain ⟨a₂, b₂⟩ := h₂.mem_body (h₁.fd_eq.trans hfd) hc
    refine ⟨by rw [a₂, a₁, delivered_body_append, List.flatten_append, List.append_assoc], ?_⟩
    intro h
    by_cases h2 : delivered_body l₂ = []
    · rw [(h₂.mem_none (h₁.fd_eq.trans hfd) h2).1]
      apply b₁
      intro h1
      exact h (by rw [delivered_body_append, h1, h2]; rfl)
    · exact b₂ h2
  file_frame := by
    intro fd hfd
    obtain ⟨a₁, b₁, c₁, d₁⟩ := h₁.file_frame fd hfd
    obtain ⟨a₂, b₂, c₂, d₂⟩ := h₂.file_frame fd (h₁.fd_eq.trans hfd)
    exact ⟨fun p hp => (a₂ p hp).trans (a₁ p hp), b₂.trans b₁, c₂.trans c₁, d₂.trans d₁⟩
  file_full := by
    intro fd hfd hfull
    rw [h₂.file_full fd (h₁.fd_eq.trans hfd) hfull, h₁.file_full fd hfd hfull,
      delivered_body_append, List.flatten_append, Option.map_map]
    congr 1
    funext c
    simp [List.append_assoc]

theorem post_mono {env : Env} {clean clean' : Prop} {m₁ m₂ : HttpData} {w₁ w₂ : World}
    {l : List ExtCall} (hc : clean' → clean) (h : Post env clean m₁ w₁ m₂ w₂ l) :
    Post env clean' m₁ w₁ m₂ w₂ l where
  log := h.log
  fd_eq := h.fd_eq
  inv := h.inv
  hdr := fun c => h.hdr (hc c)
  hdr_none := h.hdr_none
  hdr_some := fun c => h.hdr_some (hc c)
  mem_frame := h.mem_frame
  mem_none := h.mem_none
  mem_body := fun hfd c => h.mem_body hfd (hc c)
  file_frame := h.file_frame
  file_full := h.file_full

theorem pending_congr (fd : String) (mem mem' : HttpData) (w w' : World)
    (hf : w'.files fd = w.files fd) (hb : mem'.download_buffer = mem.download_buffer)
    (hc : mem'.current_buf_size = mem.current_buf_size) :
    pending fd mem' w' = pending fd mem w := by
  simp only [pending, hf, hb, hc]

theorem invoke_spec (env : Env) (ev : CurlEvent) (mem : HttpData) (w : World)
    (h : MemInv mem) :
    ∃ r mem' w' l, invoke env ev mem w = some (r, mem', w') ∧
      Post env (ev.alloc_ok = true) mem w mem' w' l ∧
      delivered_header l = header_chunks [ev] ∧ delivered_body l = body_chunks [ev] ∧
      (ev.alloc_ok = true → (mem.download_file_fd = none ∨ FullWrites env) →
        r = ev.data.length) := by
  cases ev with
  | header data ok =>
    cases ok with
    | false =>
      refine ⟨0, mem, { w with log := w.log ++ [ExtCall.header_cb data] },
        [ExtCall.header_cb data], by simp [invoke, curl_cb_header_fail], ?_, rfl, rfl, ?_⟩
      · exact
          { log := rfl, fd_eq := rfl, inv := h
            hdr := by intro hc; simp [CurlEvent.alloc_ok] at hc
            hdr_none := fun _ => ⟨rfl, rfl⟩
            hdr_some := by intro hc; simp [CurlEvent.alloc_ok] at hc
            mem_frame := fun _ => ⟨rfl, rfl, rfl⟩
            mem_none := fun _ _ => ⟨rfl, rfl⟩
            mem_body := by intro _ hc; simp [CurlEvent.alloc_ok] at hc
            file_frame := fun _ _ => ⟨fun _ _ => rfl, rfl, rfl, rfl⟩
            file_full := by
              intro fd _ _
              simp [delivered_body, pending] }
      · intro hc; simp [CurlEvent.alloc_ok] at hc
    | true =>
      obtain ⟨blk', he, hok, hb⟩ := curl_cb_header_ok env data mem h.header
      refine ⟨data.length,
        { mem with header := some blk', header_size := mem.header_size + data.length },
        { w with log := w.log ++ [ExtCall.header_cb data] },
        [ExtCall.header_cb data], by simp only [invoke, he], ?_, rfl, rfl, fun _ _ => rfl⟩
      exact
        { log := rfl, fd_eq := rfl
          inv := ⟨hok, h.response, h.cursor, h.buffer⟩
          hdr := by intro _; rw [hb]; simp [delivered_header]
          hdr_none := by intro hn; simp [delivered_header] at hn
          hdr_some := by intro _ _; simp
          mem_frame := fun _ => ⟨rfl, rfl, rfl⟩
          mem_none := fun _ _ => ⟨rfl, rfl⟩
          mem_body := by intro _ _; simp [delivered_body]
          file_frame := fun _ _ => ⟨fun _ _ => rfl, rfl, rfl, rfl⟩
          file_full := by
            intro fd _ _
            simp [delivered_body, pending] }
  | body data ok =>
    cases hfd : mem.download_file_fd with
    | none =>
      cases ok with
      | false =>
        refine ⟨0, mem, { w with log := w.log ++ [ExtCall.write_cb data] },
          [ExtCall.write_cb data], by simp [invoke, curl_cb_memory_fail, hfd], ?_, rfl, rfl, ?_⟩
        · exact
            { log := rfl, fd_eq := rfl, inv := h
              hdr := by intro hc; simp [CurlEvent.alloc_ok] at hc
              hdr_none := fun _ => ⟨rfl, rfl⟩
              hdr_some := by intro hc; simp [CurlEvent.alloc_ok] at hc
              mem_frame := fun _ => ⟨rfl, rfl, rfl⟩
              mem_none := fun _ _ => ⟨rfl, rfl⟩
              mem_body := by intro _ hc; simp [CurlEvent.alloc_ok] at hc
              file_frame := by intro fd hfd'; rw [hfd] at hfd'; cases hfd'
              file_full := by intro fd hfd'; rw [hfd] at hfd'; cases hfd' }
        · intro hc; simp [CurlEvent.alloc_ok] at hc
      | true =>
        obtain ⟨blk', he, hok, hb⟩ := curl_cb_memory_ok env data mem
          { w with log := w.log ++ [ExtCall.write_cb data] } hfd h.response
        refine ⟨data.length,
          { mem with response := some blk', size := mem.size + data.length },
          { w with log := w.log ++ [ExtCall.write_cb data] },
          [ExtCall.write_cb data], by simp only [invoke, he], ?_, rfl, rfl, fun _ _ => rfl⟩
        exact
          { log := rfl, fd_eq := rfl
            inv := ⟨h.header, hok, h.cursor, h.buffer⟩
            hdr := by intro _; simp [delivered_header]
            hdr_none := fun _ => ⟨rfl, rfl⟩
            hdr_some := by intro _ hn; simp [delivered_header] at hn
            mem_frame := fun _ => ⟨rfl, rfl, rfl⟩
            mem_none := by intro _ hn; simp [delivered_body] at hn
            mem_body := by
              intro _ _
              refine ⟨?_, by intro _; simp⟩
              rw [hb]; simp [delivered_body]
            file_frame := by intro fd hfd'; rw [hfd] at hfd'; cases hfd'
            file_full := by intro fd hfd'; rw [hfd] at hfd'; cases hfd' }
    | some fd =>
      obtain ⟨buf, hbuf, hlen⟩ := h.buffer fd hfd
      obtain ⟨r, mem', w', he, hpost⟩ := curl_cb_file env data ok mem
        { w with log := w.log ++ [ExtCall.write_cb data] } fd buf hfd hbuf hlen
        (Nat.le_of_lt h.cursor)
      obtain ⟨buf', cur', hblen, _, hlt, hmem⟩ := hpost.frame
      obtain ⟨lf, hlog, hlf⟩ := hpost.world.log
      have hdb : delivered_body (ExtCall.write_cb data :: lf) = [data] := by
        have := delivered_body_fwrites fd lf hlf
        simp only [delivered_body] at this ⊢
        simp [List.filterMap_cons, this]
      have hdh : delivered_header (ExtCall.write_cb data :: lf) = [] := by
        have := delivered_header_fwrites fd lf hlf
        simp only [delivered_header] at this ⊢
        simp [List.filterMap_cons, this]
      refine ⟨r, mem', w', ExtCall.write_cb data :: lf, by simp only [invoke, he], ?_, ?_, ?_, ?_⟩
      · subst hmem
        exact
          { log := by rw [hlog]; simp
            fd_eq := rfl
            inv := ⟨h.header, h.response, hlt (Or.inl h.cursor), fun _ _ => ⟨buf', rfl, hblen⟩⟩
            hdr := by intro _; rw [hdh]; simp
            hdr_none := fun _ => ⟨rfl, rfl⟩
            hdr_some := by intro _ hn; exact absurd hdh hn
            mem_frame := by intro hfd'; rw [hfd] at hfd'; cases hfd'
            mem_none := by intro hfd'; rw [hfd] at hfd'; cases hfd'
            mem_body := by intro hfd'; rw [hfd] at hfd'; cases hfd'
            file_frame := by
              intro fd' hfd'
              rw [hfd] at hfd'
              cases hfd'
              exact ⟨hpost.world.others, hpost.world.exists_iff, rfl, rfl⟩
            file_full := by
              intro fd' hfd' hfull
              rw [hfd] at hfd'
              cases hfd'
              rw [(hpost.full hfull).2, hdb]
              simp [pending] }
      · rw [hdh]; rfl
      · rw [hdb]; rfl
      · intro _ hor
        rcases hor with hn | hfull
        · cases hn
        · exact (hpost.full hfull).1

theorem header_chunks_cons (ev : CurlEvent) (evs : List CurlEvent) :
    header_chunks (ev :: evs) = header_chunks [ev] ++ header_chunks evs := by
  cases ev <;> simp [header_chunks, List.filterMap_cons]

theorem body_chunks_cons (ev : CurlEvent) (evs : List CurlEvent) :
    body_chunks (ev :: evs) = body_chunks [ev] ++ body_chunks evs := by
  cases ev <;> simp [body_chunks, List.filterMap_cons]

theorem deliver_spec (env : Env) (evs : List CurlEvent) :
    ∀ (mem : HttpData) (w : World), MemInv mem →
      ∃ aborted mem' w' l, deliver env evs mem w = some (aborted, mem', w') ∧
        Post env (AllocsOk evs) mem w mem' w' l ∧
        (aborted = false →
          delivered_header l = header_chunks evs ∧ delivered_body l = body_chunks evs) ∧
        (AllocsOk evs → (mem.download_file_fd = none ∨ FullWrites env) → aborted = false) := by
  induction evs with
  | nil =>
    intro mem w h
    exact ⟨false, mem, w, [], rfl, post_refl _ _ _ _ h, fun _ => ⟨rfl, rfl⟩, fun _ _ => rfl⟩
  | cons ev rest ih =>
    intro mem w h
    obtain ⟨r, mem₁, w₁, l₁, he, hp, hh, hb, hr⟩ := invoke_spec env ev mem w h
    have hc₁ : AllocsOk (ev :: rest) → ev.alloc_ok = true :=
      fun hc => hc ev (List.mem_cons_self _ _)
    have hc₂ : AllocsOk (ev :: rest) → AllocsOk rest :=
      fun hc e he => hc e (List.mem_cons_of_mem _ he)
    by_cases hret : r ≠ ev.data.length
    · refine ⟨true, mem₁, w₁, l₁, by simp only [deliver, he, if_pos hret], post_mono hc₁ hp, ?_, ?_⟩
      · intro hf; cases hf
      · intro hc hm
        exact absurd (hr (hc₁ hc) hm) hret
    · obtain ⟨a, mem₂, w₂, l₂, he₂, hp₂, hd₂, ha₂⟩ := ih mem₁ w₁ hp.inv
      refine ⟨a, mem₂, w₂, l₁ ++ l₂, by simp only [deliver, he, if_neg hret, he₂],
        post_trans (post_mono hc₁ hp) (post_mono hc₂ hp₂), ?_, ?_⟩
      · intro ha
        obtain ⟨x, y⟩ := hd₂ ha
        rw [delivered_header_append, delivered_body_append, hh, hb, x, y,
          header_chunks_cons ev rest, body_chunks_cons ev rest]
        exact ⟨rfl, rfl⟩
      · intro hc hm
        apply ha₂ (hc₂ hc)
        rcases hm with hm | hm
        · exact Or.inl (hp.fd_eq.trans hm)
        · exact Or.inr hm

theorem post_of_log (env : Env) (clean : Prop) (mem : HttpData) (w : World)
    (l : List ExtCall) (h : MemInv mem) (hh : delivered_header l = [])
    (hb : delivered_body l = []) :
    Post env clean mem w mem { w with log := w.log ++ l } l where
  log := rfl
  fd_eq := rfl
  inv := h
  hdr := by intro _; rw [hh]; simp
  hdr_none := fun _ => ⟨rfl, rfl⟩
  hdr_some := by intro _ hn; exact absurd hh hn
  mem_frame := fun _ => ⟨rfl, rfl, rfl⟩
  mem_none := fun _ _ => ⟨rfl, rfl⟩
  mem_body := by
    intro _ _
    rw [hb]
    exact ⟨by simp, fun hn => absurd rfl hn⟩
  file_frame := fun _ _ => ⟨fun _ _ => rfl, rfl, rfl, rfl⟩
  file_full := by
    intro fd _ _
    rw [hb]
    simp [pending]

theorem http_exchange_init_failed (env : Env) (rq : Request) (response : HttpResponse)
    (data : HttpData) (w : World) (hinit : env.curl_easy_init_ok = false) :
    http_exchange env rq response data w =
      some ({ response with status := -3, message := "curl_easy_init 失败" }, data,
        { w with log := w.log ++ [ExtCall.curl_easy_init false] }) := by
  simp [http_exchange, hinit]

theorem http_exchange_ok (env : Env) (rq : Request) (response : HttpResponse)
    (data : HttpData) (w : World) (hinit : env.curl_easy_init_ok = true) (h : MemInv data) :
    ∃ aborted res mem₁ wp l,
      curl_easy_perform env (curl_configure rq {}) data
        { w with log := w.log ++ [ExtCall.curl_easy_init true] } = some (res, mem₁, wp) ∧
      res = (if aborted = true then CURLE_WRITE_ERROR else env.result) ∧
      http_exchange env rq response data w =
        some (response_of env response res, mem₁,
          { wp with log := wp.log ++ [ExtCall.curl_easy_cleanup] }) ∧
      Post env (AllocsOk env.events) data w mem₁
        { wp with log := wp.log ++ [ExtCall.curl_easy_cleanup] } l ∧
      ExtCall.curl_easy_perform (curl_configure rq {}) ∈ l ∧
      (aborted = false → delivered_header l = header_chunks env.events ∧
        delivered_body l = body_chunks env.events) ∧
      (AllocsOk env.events → (data.download_file_fd = none ∨ FullWrites env) →
        aborted = false) := by
  obtain ⟨aborted, mem₁, wd, ld, hd, hp, hdel, hab⟩ := deliver_spec env env.events data
    { w with log := w.log ++ [ExtCall.curl_easy_init true] ++
      [ExtCall.curl_easy_perform (curl_configure rq {})] } h
  have hp₀ : Post env (AllocsOk env.events) data w data _ _ :=
    post_of_log env (AllocsOk env.events) data w
      ([ExtCall.curl_easy_init true] ++ [ExtCall.curl_easy_perform (curl_configure rq {})])
      h rfl rfl
  have hp₂ : Post env (AllocsOk env.events) mem₁ wd mem₁ _ _ :=
    post_of_log env (AllocsOk env.events) mem₁ wd [ExtCall.curl_easy_cleanup] hp.inv rfl rfl
  have hpost := post_trans (post_trans hp₀ (by simpa only [List.append_assoc] using hp)) hp₂
  refine ⟨aborted, if aborted = true then CURLE_WRITE_ERROR else env.result, mem₁, wd, _,
    ?_, rfl, ?_, hpost, ?_, ?_, hab⟩
  · simp only [curl_easy_perform, hd]
  · simp only [http_exchange, hinit, if_true, curl_easy_perform, hd, response_of]
  · simp
  · intro ha
    obtain ⟨x, y⟩ := hdel ha
    simp only [delivered_header_append, delivered_body_append, x, y]
    exact ⟨by simp [delivered_header], by simp [delivered_body]⟩

theorem memInv_init : MemInv data_init where
  header := rfl
  response := rfl
  cursor := by decide
  buffer := by intro fd h; cases h

theorem memInv_open (env : Env) (path : String) : MemInv (data_open env path) where
  header := rfl
  response := rfl
  cursor := by show 0 < DOWNLOAD_BUFFER_SIZE; decide
  buffer := by
    intro fd _
    exact ⟨_, rfl, List.length_replicate _ _⟩

theorem pending_open (env : Env) (path : String) (w : World) :
    pending path (data_open env path) (world_open path w) = some [] := by
  simp [pending, data_open, world_open, data_init]

theorem http_open_none (env : Env) (rq : Request) (w : World)
    (h : rq.download_file_path = none) :
    http_open env rq data_init w = OpenResult.ok data_init w := by
  simp [http_open, h]

theorem http_open_ok (env : Env) (rq : Request) (w : World) (path : String)
    (h : rq.download_file_path = some path) (hok : env.fopen_wb_ok path = true) :
    http_open env rq data_init w = OpenResult.ok (data_open env path) (world_open path w) := by
  simp [http_open, h, hok, data_open, world_open]

theorem http_open_failed (env : Env) (rq : Request) (w : World) (path : String)
    (h : rq.download_file_path = some path) (hok : env.fopen_wb_ok path = false) :
    http_open env rq data_init w =
      OpenResult.failed { w with log := w.log ++ [ExtCall.fopen_wb path false] } := by
  simp [http_open, h, hok]

theorem http_flush_memory (env : Env) (mem : HttpData) (w : World)
    (hfd : mem.download_file_fd = none) : http_flush env mem w = some (mem, w) := by
  simp [http_flush, hfd]

theorem http_flush_file (env : Env) (mem : HttpData) (w : World) (fd : String)
    (h : MemInv mem) (hfd : mem.download_file_fd = some fd) :
    ∃ w₂ lf, http_flush env mem w =
        some ({ mem with current_buf_size := 0, download_buffer := none,
                         download_file_fd := none }, w₂) ∧
      w₂.log = w.log ++ lf ++ [ExtCall.free_buffer, ExtCall.fclose fd] ∧
      (∀ c ∈ lf, ∃ a b, c = ExtCall.fwrite fd a b) ∧
      (∀ p, p ≠ fd → w₂.files p = w.files p) ∧
      (w₂.files fd).isSome = (w.files fd).isSome ∧
      (FullWrites env → w₂.files fd = pending fd mem w) := by
  obtain ⟨buf, hbuf, hlen⟩ := h.buffer fd hfd
  by_cases hc : mem.current_buf_size > 0
  · have hs := fwrite_worldStep env buf mem.current_buf_size fd w
    obtain ⟨lf, hlog, hlf⟩ := hs.log
    refine ⟨{ (fwrite env buf mem.current_buf_size fd w).2 with
        log := (fwrite env buf mem.current_buf_size fd w).2.log ++
          [ExtCall.free_buffer, ExtCall.fclose fd] }, lf, ?_, ?_, hlf, hs.others,
        hs.exists_iff, ?_⟩
    · simp only [http_flush, hfd, hbuf, if_pos hc]
    · simp only [hlog]
    · intro hfull
      simp only [fwrite_files_full env hfull, pending, hbuf]
      cases w.files fd <;> rfl
  · have hc0 : mem.current_buf_size = 0 := by omega
    refine ⟨{ w with log := w.log ++ [ExtCall.free_buffer, ExtCall.fclose fd] }, [], ?_, by simp,
      by simp, fun _ _ => rfl, rfl, ?_⟩
    · simp only [http_flush, hfd, hbuf, if_neg hc]
      cases mem
      simp only at hc0
      subst hc0
      rfl
    · intro _
      simp only [pending, hbuf, hc0, List.take_zero, List.append_nil]
      cases w.files fd <;> rfl

theorem http_request_eq (env : Env) (rq : Request) (w : World) (d : HttpData)
    (w₀ : World) (resp : HttpResponse) (m₁ : HttpData) (w₁ : World) (m₂ : HttpData)
    (w₂ : World) (m₃ : HttpData) (w₃ : World)
    (h₀ : http_open env rq data_init w = OpenResult.ok d w₀)
    (h₁ : http_exchange env rq response_init d w₀ = some (resp, m₁, w₁))
    (h₂ : http_flush env m₁ w₁ = some (m₂, w₂))
    (h₃ : http_recover rq resp.status m₂ w₂ = some (m₃, w₃)) :
    http_request env rq w =
      some { result := some { resp with size := m₃.size, response := m₃.response,
                                        header_size := m₃.header_size, header := m₃.header },
             leaked := none, world := w₃ } := by
  simp only [http_request, h₀, h₁, h₂, h₃]

theorem http_recover_none (rq : Request) (status : Int) (data : HttpData) (w : World)
    (h : rq.download_file_path = none) : http_recover rq status data w = some (data, w) := by
  simp [http_recover, h]

theorem http_recover_200 (rq : Request) (data : HttpData) (w : World) :
    http_recover rq 200 data w = some (data, w) := by
  simp [http_recover]

theorem http_recover_file (rq : Request) (status : Int) (data : HttpData) (w : World)
    (path : String) (c : Bytes) (h : rq.download_file_path = some path)
    (hs : status ≠ 200) (hc : w.files path = some c) :
    http_recover rq status data w =
      some ({ data with response := some (c ++ [0]), size := c.length }, remove path w) := by
  simp [http_recover, h, hs, is_file_exist, read_whole_file, hc]

theorem calls_since_eq (w w' : World) (l : List ExtCall) (h : w'.log = w.log ++ l) :
    calls_since w w' = l := by
  simp [calls_since, h]

theorem http_exchange_spec (env : Env) (rq : Request) (response : HttpResponse)
    (data : HttpData) (w : World) (h : MemInv data) :
    ∃ resp m₁ w₁ l, http_exchange env rq response data w = some (resp, m₁, w₁) ∧
      Post env (AllocsOk env.events) data w m₁ w₁ l ∧
      (env.curl_easy_init_ok = false →
        resp = { response with status := -3, message := "curl_easy_init 失败" } ∧
        m₁ = data ∧ l = [ExtCall.curl_easy_init false]) ∧
      (env.curl_easy_init_ok = true →
        ∃ aborted res wp,
          curl_easy_perform env (curl_configure rq {}) data
            { w with log := w.log ++ [ExtCall.curl_easy_init true] } = some (res, m₁, wp) ∧
          res = (if aborted = true then CURLE_WRITE_ERROR else env.result) ∧
          resp = response_of env response res ∧
          ExtCall.curl_easy_perform (curl_configure rq {}) ∈ l ∧
          (aborted = false → delivered_header l = header_chunks env.events ∧
            delivered_body l = body_chunks env.events) ∧
          (AllocsOk env.events → (data.download_file_fd = none ∨ FullWrites env) →
            aborted = false)) := by
  cases hinit : env.curl_easy_init_ok with
  | false =>
    refine ⟨_, _, _, _, http_exchange_init_failed env rq response data w hinit,
      post_of_log env _ data w [ExtCall.curl_easy_init false] h rfl rfl,
      fun _ => ⟨rfl, rfl, rfl⟩, (fun hc => by cases hc)⟩
  | true =>
    obtain ⟨aborted, res, m₁, wp, l, hperf, hres, hex, hpost, hmem, hdel, hab⟩ :=
      http_exchange_ok env rq response data w hinit h
    exact ⟨_, _, _, l, hex, hpost, (fun hc => by cases hc),
      fun _ => ⟨aborted, res, wp, hperf, hres, rfl, hmem, hdel, hab⟩⟩

theorem delivered_body_flush (fd : String) (l lf : List ExtCall)
    (hlf : ∀ c ∈ lf, ∃ a b, c = ExtCall.fwrite fd a b) :
    delivered_body ([ExtCall.fopen_wb fd true] ++ [ExtCall.malloc DOWNLOAD_BUFFER_SIZE] ++ l ++
      lf ++ [ExtCall.free_buffer, ExtCall.fclose fd]) = delivered_body l := by
  simp only [delivered_body_append, delivered_body_fwrites fd lf hlf]
  simp [delivered_body]

theorem delivered_header_flush (fd : String) (l lf : List ExtCall)
    (hlf : ∀ c ∈ lf, ∃ a b, c = ExtCall.fwrite fd a b) :
    delivered_header ([ExtCall.fopen_wb fd true] ++ [ExtCall.malloc DOWNLOAD_BUFFER_SIZE] ++ l ++
      lf ++ [ExtCall.free_buffer, ExtCall.fclose fd]) = delivered_header l := by
  simp only [delivered_header_append, delivered_header_fwrites fd lf hlf]
  simp [delivered_header]

theorem http_request_file (env : Env) (rq : Request) (w : World) (path : String)
    (hpath : rq.download_file_path = some path) (hok : env.fopen_wb_ok path = true)
    (resp : HttpResponse) (m₁ : HttpData) (w₁ : World) (l : List ExtCall)
    (hex : http_exchange env rq response_init (data_open env path) (world_open path w)
      = some (resp, m₁, w₁))
    (hpost : Post env (AllocsOk env.events) (data_open env path) (world_open path w) m₁ w₁ l) :
    ∃ w₂ lf c,
      http_flush env m₁ w₁ =
        some ({ m₁ with current_buf_size := 0, download_buffer := none,
                        download_file_fd := none }, w₂) ∧
      w₂.log = w.log ++ ([ExtCall.fopen_wb path true] ++ [ExtCall.malloc DOWNLOAD_BUFFER_SIZE]
        ++ l ++ lf ++ [ExtCall.free_buffer, ExtCall.fclose path]) ∧
      (∀ c ∈ lf, ∃ a b, c = ExtCall.fwrite path a b) ∧
      w₂.files path = some c ∧
      (FullWrites env → c = (delivered_body l).flatten) ∧
      (∀ p, p ≠ path → w₂.files p = w.files p) ∧
      http_request env rq w = some (outcome_file path resp m₁ w₂ c) := by
  have hfd : m₁.download_file_fd = some path := hpost.fd_eq
  obtain ⟨w₂, lf, hfl, hlog, hlf, hoth, hsome, hfull⟩ :=
    http_flush_file env m₁ w₁ path hpost.inv hfd
  obtain ⟨foth, fsome, fresp, fsize⟩ := hpost.file_frame path rfl
  have hex₂ : (w₂.files path).isSome = true := by
    rw [hsome, fsome]
    simp [world_open]
  obtain ⟨c, hc⟩ := Option.isSome_iff_exists.mp hex₂
  refine ⟨w₂, lf, c, hfl, ?_, hlf, hc, ?_, ?_, ?_⟩
  · rw [hlog, hpost.log]
    simp [world_open, List.append_assoc]
  · intro hf
    have h1 := hfull hf
    rw [hpost.file_full path rfl hf, pending_open, hc] at h1
    simpa using h1
  · intro p hp
    rw [hoth p hp, foth p hp]
    simp [world_open, hp]
  · by_cases hs : resp.status ≠ 200
    · rw [http_request_eq env rq w _ _ resp m₁ w₁ _ w₂ _ _ (http_open_ok env rq w path hpath hok)
        hex hfl (http_recover_file rq resp.status _ w₂ path c hpath hs hc)]
      simp only [outcome_file, if_pos hs]
    · have hs' : resp.status = 200 := by
        by_contra hne
        exact hs hne
      have hrec := http_recover_200 rq
        { m₁ with current_buf_size := 0, download_buffer := none, download_file_fd := none } w₂
      rw [← hs'] at hrec
      rw [http_request_eq env rq w _ _ resp m₁ w₁ _ w₂ _ _ (http_open_ok env rq w path hpath hok)
        hex hfl hrec]
      simp only [outcome_file, if_neg hs, fresp, fsize]
      rfl

theorem http_request_memory (env : Env) (rq : Request) (w : World)
    (hpath : rq.download_file_path = none)
    (resp : HttpResponse) (m₁ : HttpData) (w₁ : World) (l : List ExtCall)
    (hex : http_exchange env rq response_init data_init w = some (resp, m₁, w₁))
    (hpost : Post env (AllocsOk env.events) data_init w m₁ w₁ l) :
    http_request env rq w =
      some { result := some { resp with size := m₁.size, response := m₁.response,
                                        header_size := m₁.header_size,
                                        header := m₁.header },
             leaked := none, world := w₁ } := by
  have hfd : m₁.download_file_fd = none := hpost.fd_eq
  exact http_request_eq env rq w _ _ resp m₁ w₁ _ _ _ _ (http_open_none env rq w hpath) hex
    (http_flush_memory env m₁ w₁ hfd) (http_recover_none rq resp.status m₁ w₁ hpath)

theorem curl_cb_fits (env : Env) (data : Bytes) (ok : Bool) (mem : HttpData) (w : World)
    (fd : String) (buf : Bytes) (hfd : mem.download_file_fd = some fd)
    (hbuf : mem.download_buffer = some buf) (hlen : buf.length = DOWNLOAD_BUFFER_SIZE)
    (hpos : 0 < data.length)
    (hcur : mem.current_buf_size + data.length < DOWNLOAD_BUFFER_SIZE) :
    _curl_cb env data ok mem w =
      some (data.length,
        { mem with
          download_buffer :=
            some (iter_buf data data.length data.length mem.current_buf_size buf),
          current_buf_size := mem.current_buf_size + data.length }, w) := by
  have hle : mem.current_buf_size ≤ DOWNLOAD_BUFFER_SIZE := by omega
  have hws : write_size data.length mem.current_buf_size = data.length := by
    rw [write_size_eq _ _ hle]; omega
  have hne : ¬ (mem.current_buf_size + data.length = DOWNLOAD_BUFFER_SIZE) := by omega
  simp only [_curl_cb, hfd, curl_cb_loop, gt_iff_lt, hpos, if_true,
    curl_cb_iter_eq env data data.length fd data.length mem w buf hbuf hlen hle, hws, hne,
    if_false, Nat.sub_self, lt_self_iff_false]

theorem curl_cb_fills_short (env : Env) (data : Bytes) (ok : Bool) (mem : HttpData) (w : World)
    (fd : String) (buf : Bytes) (hfd : mem.download_file_fd = some fd)
    (hbuf : mem.download_buffer = some buf) (hlen : buf.length = DOWNLOAD_BUFFER_SIZE)
    (hpos : 0 < data.length)
    (hcur : mem.current_buf_size + data.length = DOWNLOAD_BUFFER_SIZE)
    (hshort : env.fwrite_ret w.fwrites DOWNLOAD_BUFFER_SIZE < DOWNLOAD_BUFFER_SIZE) :
    _curl_cb env data ok mem w =
      some (env.fwrite_ret w.fwrites DOWNLOAD_BUFFER_SIZE,
        { mem with
          download_buffer :=
            some (iter_buf data data.length data.length mem.current_buf_size buf),
          current_buf_size := 0 },
        (fwrite env (iter_buf data data.length data.length mem.current_buf_size buf)
          DOWNLOAD_BUFFER_SIZE fd w).2) := by
  have hle : mem.current_buf_size ≤ DOWNLOAD_BUFFER_SIZE := by omega
  have hws : write_size data.length mem.current_buf_size = data.length := by
    rw [write_size_eq _ _ hle]; omega
  have hres : (fwrite env (iter_buf data data.length data.length mem.current_buf_size buf)
      DOWNLOAD_BUFFER_SIZE fd w).1 = env.fwrite_ret w.fwrites DOWNLOAD_BUFFER_SIZE := by
    rw [fwrite_fst]
    exact Nat.min_eq_left (Nat.le_of_lt hshort)
  have hne : env.fwrite_ret w.fwrites DOWNLOAD_BUFFER_SIZE ≠ DOWNLOAD_BUFFER_SIZE :=
    Nat.ne_of_lt hshort
  simp only [_curl_cb, hfd, curl_cb_loop, gt_iff_lt, hpos, if_true,
    curl_cb_iter_eq env data data.length fd data.length mem w buf hbuf hlen hle, hws, hcur,
    hres, ne_eq, hne, not_false_eq_true]

theorem http_exchange_of_deliver (env : Env) (rq : Request) (response : HttpResponse)
    (data : HttpData) (w : World) (aborted : Bool) (m₁ : HttpData) (w₁ : World)
    (hinit : env.curl_easy_init_ok = true)
    (hd : deliver env env.events data
      { w with log := w.log ++ [ExtCall.curl_easy_init true] ++
        [ExtCall.curl_easy_perform (curl_configure rq {})] } = some (aborted, m₁, w₁)) :
    http_exchange env rq response data w =
      some (response_of env response (if aborted = true then CURLE_WRITE_ERROR else env.result),
        m₁, { w₁ with log := w₁.log ++ [ExtCall.curl_easy_cleanup] }) := by
  simp only [http_exchange, hinit, if_true, curl_easy_perform, hd, response_of]

theorem deliver_fill_short (env : Env) (d₁ d₂ : Bytes) (ok₁ ok₂ : Bool) (mem : HttpData)
    (w : World) (fd : String) (buf : Bytes) (hfd : mem.download_file_fd = some fd)
    (hbuf : mem.download_buffer = some buf) (hlen : buf.length = DOWNLOAD_BUFFER_SIZE)
    (h₁ : 0 < d₁.length) (h₂ : 0 < d₂.length)
    (hcur : mem.current_buf_size + d₁.length + d₂.length = DOWNLOAD_BUFFER_SIZE)
    (hlt : d₂.length < DOWNLOAD_BUFFER_SIZE)
    (hshort : ∀ k, env.fwrite_ret k DOWNLOAD_BUFFER_SIZE = d₂.length) :
    ∃ b c,
      deliver env [CurlEvent.body d₁ ok₁, CurlEvent.body d₂ ok₂] mem w =
        some (false, { mem with download_buffer := some b, current_buf_size := 0 },
          { files := fun p => if p = fd then (w.files p).map (fun x => x ++ c) else w.files p,
            fwrites := w.fwrites + 1,
            log := w.log ++ [ExtCall.write_cb d₁] ++ [ExtCall.write_cb d₂] ++
              [ExtCall.fwrite fd DOWNLOAD_BUFFER_SIZE d₂.length] }) ∧
      b.length = DOWNLOAD_BUFFER_SIZE ∧ c.length = d₂.length ∧
      ∀ w', _curl_cb env d₂ ok₂
          { mem with
            download_buffer :=
              some (iter_buf d₁ d₁.length d₁.length mem.current_buf_size buf),
            current_buf_size := mem.current_buf_size + d₁.length } w' =
        some (d₂.length, { mem with download_buffer := some b, current_buf_size := 0 },
          (fwrite env b DOWNLOAD_BUFFER_SIZE fd w').2) := by
  have hle : mem.current_buf_size ≤ DOWNLOAD_BUFFER_SIZE := by omega
  have hbl := iter_buf_length d₁ d₁.length d₁.length mem.current_buf_size buf hlen hle
  have hA := fun w' => curl_cb_fits env d₁ ok₁ mem w' fd buf hfd hbuf hlen h₁ (by omega)
  have hB := fun w' => curl_cb_fills_short env d₂ ok₂
    { mem with
      download_buffer := some (iter_buf d₁ d₁.length d₁.length mem.current_buf_size buf),
      current_buf_size := mem.current_buf_size + d₁.length } w' fd _ hfd rfl hbl h₂ hcur
    (by rw [hshort]; exact hlt)
  simp only [hshort] at hB
  have hbl₂ := iter_buf_length d₂ d₂.length d₂.length (mem.current_buf_size + d₁.length)
    (iter_buf d₁ d₁.length d₁.length mem.current_buf_size buf) hbl (by omega)
  refine ⟨_, List.take d₂.length (iter_buf d₂ d₂.length d₂.length
      (mem.current_buf_size + d₁.length)
      (iter_buf d₁ d₁.length d₁.length mem.current_buf_size buf)), ?_, hbl₂, ?_, hB⟩
  · simp only [deliver, invoke, hA, hB, CurlEvent.data, ne_eq, not_true_eq_false, if_false,
      fwrite, hshort, Nat.min_eq_left (Nat.le_of_lt hlt), List.append_assoc]
  · rw [List.length_take, hbl₂]
    omega

theorem http_flush_empty (env : Env) (mem : HttpData) (w : World) (fd : String) (buf : Bytes)
    (hfd : mem.download_file_fd = some fd) (hbuf : mem.download_buffer = some buf)
    (hcur : mem.current_buf_size = 0) :
    http_flush env mem w =
      some ({ mem with download_buffer := none, download_file_fd := none },
        { w with log := w.log ++ [ExtCall.free_buffer, ExtCall.fclose fd] }) := by
  simp only [http_flush, hfd, hbuf, hcur, gt_iff_lt, lt_self_iff_false, if_false]

theorem http_request_performs (env : Env) (rq : Request) (w : World)
    (hinit : env.curl_easy_init_ok = true)
    (hopen : ∀ p, rq.download_file_path = some p → env.fopen_wb_ok p = true) :
    ∃ out, http_request env rq w = some out ∧
      ExtCall.curl_easy_perform (curl_configure rq {}) ∈ calls_since w out.world := by
  cases hpath : rq.download_file_path with
  | none =>
    obtain ⟨resp, m₁, w₁, l, hex, hpost, _, hi⟩ := http_exchange_spec env rq response_init
      data_init w memInv_init
    obtain ⟨_, _, _, _, _, _, hmem, _, _⟩ := hi hinit
    refine ⟨_, http_request_memory env rq w hpath resp m₁ w₁ l hex hpost, ?_⟩
    rw [calls_since_eq w _ l hpost.log]
    exact hmem
  | some path =>
    obtain ⟨resp, m₁, w₁, l, hex, hpost, _, hi⟩ := http_exchange_spec env rq response_init
      (data_open env path) (world_open path w) (memInv_open env path)
    obtain ⟨_, _, _, _, _, _, hmem, _, _⟩ := hi hinit
    obtain ⟨w₂, lf, c, _, hlog, _, _, _, _, hreq⟩ :=
      http_request_file env rq w path hpath (hopen path hpath) resp m₁ w₁ l hex hpost
    refine ⟨_, hreq, ?_⟩
    by_cases hs : resp.status ≠ 200
    · have hl : (outcome_file path resp m₁ w₂ c).world.log = w.log ++
          ([ExtCall.fopen_wb path true] ++ [ExtCall.malloc DOWNLOAD_BUFFER_SIZE] ++ l ++ lf ++
            [ExtCall.free_buffer, ExtCall.fclose path] ++ [ExtCall.remove path]) := by
        simp only [outcome_file, if_pos hs, remove, hlog, List.append_assoc]
      rw [calls_since_eq w _ _ hl]
      simp [hmem]
    · have hl : (outcome_file path resp m₁ w₂ c).world.log = w.log ++
          ([ExtCall.fopen_wb path true] ++ [ExtCall.malloc DOWNLOAD_BUFFER_SIZE] ++ l ++ lf ++
            [ExtCall.free_buffer, ExtCall.fclose path]) := by
        simp only [outcome_file, if_neg hs, hlog]
      rw [calls_since_eq w _ _ hl]
      simp [hmem]

theorem block_bytes_length (blk : Option Bytes) (n : Nat) (h : BlockOk blk n) :
    (block_bytes blk n).length = n := by
  cases blk with
  | none =>
    simp only [BlockOk] at h
    subst h
    rfl
  | some b =>
    simp only [BlockOk] at h
    simp only [block_bytes, Option.getD_some, List.length_take]
    omega

theorem blockOk_some (blk : Option Bytes) (n : Nat) (h : BlockOk blk n) (hne : blk ≠ none) :
    ∃ b, blk = some b ∧ b.length = n + 1 ∧ b[n]? = some 0 := by
  cases blk with
  | none => exact absurd rfl hne
  | some b => exact ⟨b, rfl, h.1, h.2⟩

theorem grow_some (junk : Byte) (blk : Option Bytes) (n : Nat) (data : Bytes) :
    ∃ blk', (memcpy (realloc junk blk (n + data.length + 1)) n data).bind
        (fun p => store p (n + data.length) 0) = some blk' := by
  have hl := realloc_length junk blk (n + data.length + 1)
  have hin : n + data.length ≤ (realloc junk blk (n + data.length + 1)).length := by omega
  have hl2 : (List.take n (realloc junk blk (n + data.length + 1)) ++ data ++
      List.drop (n + data.length) (realloc junk blk (n + data.length + 1))).length
        = n + data.length + 1 := by
    simp only [List.length_append, List.length_take, List.length_drop]
    omega
  simp only [memcpy, if_pos hin, Option.some_bind, store, hl2, Nat.lt_succ_self, if_true]
  exact ⟨_, rfl⟩

theorem curl_cb_header_ret (env : Env) (data : Bytes) (mem : HttpData) :
    ∃ mem', _curl_cb_header env data true mem = some (data.length, mem') := by
  obtain ⟨blk', he⟩ := grow_some env.junk mem.header mem.header_size data
  simp only [_curl_cb_header, Bool.true_eq_false, if_false, Option.bind_eq_bind] at he ⊢
  cases hm : memcpy (realloc env.junk mem.header (mem.header_size + data.length + 1))
      mem.header_size data with
  | none => rw [hm] at he; simp at he
  | some p =>
    rw [hm] at he
    simp only [Option.some_bind] at he ⊢
    rw [he]
    exact ⟨_, rfl⟩

theorem curl_cb_memory_ret (env : Env) (data : Bytes) (mem : HttpData) (w : World)
    (hfd : mem.download_file_fd = none) :
    ∃ mem', _curl_cb env data true mem w = some (data.length, mem', w) ∧
      mem'.current_buf_size = mem.current_buf_size := by
  obtain ⟨blk', he⟩ := grow_some env.junk mem.response mem.size data
  simp only [_curl_cb, hfd, Bool.true_eq_false, if_false, Option.bind_eq_bind] at he ⊢
  cases hm : memcpy (realloc env.junk mem.response (mem.size + data.length + 1))
      mem.size data with
  | none => rw [hm] at he; simp at he
  | some p =>
    rw [hm] at he
    simp only [Option.some_bind] at he ⊢
    rw [he]
    exact ⟨_, rfl, rfl⟩

theorem curl_set_transfer_request (rq : Request) (curl : Curl) :
    (curl_set_transfer rq curl).mimepost = curl.mimepost ∧
    (curl_set_transfer rq curl).customrequest = curl.customrequest ∧
    (curl_set_transfer rq curl).copypostfields = curl.copypostfields := by
  unfold curl_set_transfer
  cases rq.progress_cb <;> cases rq.ssl_verify <;> cases rq.user_agent <;>
    by_cases hf : rq.is_follow = 0 <;> simp [hf]

theorem curl_configure_request (rq : Request) :
    (curl_configure rq {}).mimepost
      = (curl_set_request rq { url := some rq.url, buffersize := some (128 * 1024) }).mimepost ∧
    (curl_configure rq {}).customrequest
      = (curl_set_request rq
          { url := some rq.url, buffersize := some (128 * 1024) }).customrequest ∧
    (curl_configure rq {}).copypostfields
      = (curl_set_request rq
          { url := some rq.url, buffersize := some (128 * 1024) }).copypostfields :=
  curl_set_transfer_request rq _

theorem curl_configure_congr (rq rq' : Request)
    (hreq : ∀ c, curl_set_request rq' c = curl_set_request rq c)
    (hurl : rq'.url = rq.url) (hcb : rq'.progress_cb = rq.progress_cb)
    (hcp : rq'.clientp = rq.clientp) (hssl : rq'.ssl_verify = rq.ssl_verify)
    (hua : rq'.user_agent = rq.user_agent) (hfo : rq'.is_follow = rq.is_follow) :
    curl_configure rq' {} = curl_configure rq {} := by
  simp only [curl_configure, curl_set_transfer, hreq, hurl, hcb, hcp, hssl, hua, hfo]

theorem flush_step_arith (c r : Nat) (hc : c < DOWNLOAD_BUFFER_SIZE)
    (hr : DOWNLOAD_BUFFER_SIZE - c ≤ r) :
    (c + r) % DOWNLOAD_BUFFER_SIZE = (r - (DOWNLOAD_BUFFER_SIZE - c)) % DOWNLOAD_BUFFER_SIZE ∧
    (c + r) / DOWNLOAD_BUFFER_SIZE = (r - (DOWNLOAD_BUFFER_SIZE - c)) / DOWNLOAD_BUFFER_SIZE + 1 := by
  unfold DOWNLOAD_BUFFER_SIZE at *
  omega

theorem no_flush_arith (c r : Nat) (h : c + r < DOWNLOAD_BUFFER_SIZE) :
    (c + r) % DOWNLOAD_BUFFER_SIZE = c + r ∧ (c + r) / DOWNLOAD_BUFFER_SIZE = 0 := by
  unfold DOWNLOAD_BUFFER_SIZE at *
  omega

theorem curl_cb_loop_exact (env : Env) (data : Bytes) (total_size : Nat) (fd : String)
    (hfull : FullWrites env) :
    ∀ (remain_size : Nat) (mem : HttpData) (w : World) (buf : Bytes),
      mem.download_buffer = some buf → buf.length = DOWNLOAD_BUFFER_SIZE →
      mem.current_buf_size < DOWNLOAD_BUFFER_SIZE →
      ∃ buf' w', buf'.length = DOWNLOAD_BUFFER_SIZE ∧
        w'.fwrites = w.fwrites + (mem.current_buf_size + remain_size) / DOWNLOAD_BUFFER_SIZE ∧
        w'.log = w.log ++
          List.replicate ((mem.current_buf_size + remain_size) / DOWNLOAD_BUFFER_SIZE)
            (ExtCall.fwrite fd DOWNLOAD_BUFFER_SIZE DOWNLOAD_BUFFER_SIZE) ∧
        ∀ fuel, remain_size + 1 ≤ fuel →
          curl_cb_loop env data total_size fd fuel remain_size mem w =
            some (total_size,
              { mem with
                download_buffer := some buf',
                current_buf_size :=
                  (mem.current_buf_size + remain_size) % DOWNLOAD_BUFFER_SIZE }, w') := by
  intro remain_size
  induction remain_size using Nat.strong_induction_on with
  | _ remain_size ih =>
    intro mem w buf hbuf hlen hcur
    obtain ⟨mfd, mbuf, cur, msize, mresp, mhs, mhdr⟩ := mem
    dsimp only at hbuf hcur ⊢
    subst hbuf
    by_cases hr : remain_size > 0
    · have hle : cur ≤ DOWNLOAD_BUFFER_SIZE := Nat.le_of_lt hcur
      have hws := write_size_eq remain_size cur hle
      have hblen := iter_buf_length data total_size remain_size cur buf hlen hle
      have hiter := curl_cb_iter_eq env data total_size fd remain_size
        ⟨mfd, some buf, cur, msize, mresp, mhs, mhdr⟩ w buf rfl hlen hle
      dsimp only at hiter
      have hcap : 0 < DOWNLOAD_BUFFER_SIZE := by decide
      by_cases h1 : cur + write_size remain_size cur = DOWNLOAD_BUFFER_SIZE
      · have hres := fwrite_fst_full env hfull
          (iter_buf data total_size remain_size cur buf) DOWNLOAD_BUFFER_SIZE fd w
        have hwseq : write_size remain_size cur = DOWNLOAD_BUFFER_SIZE - cur := by omega
        have hge : DOWNLOAD_BUFFER_SIZE - cur ≤ remain_size := by omega
        obtain ⟨hmod, hdiv⟩ := flush_step_arith cur remain_size hcur hge
        obtain ⟨buf', w', hb', hfw, hlog, hrun⟩ := ih
          (remain_size - write_size remain_size cur) (by omega)
          { download_file_fd := mfd,
            download_buffer := some (iter_buf data total_size remain_size cur buf),
            current_buf_size := 0, size := msize, response := mresp, header_size := mhs,
            header := mhdr }
          (fwrite env (iter_buf data total_size remain_size cur buf)
            DOWNLOAD_BUFFER_SIZE fd w).2
          _ rfl hblen hcap
        dsimp only at hfw hlog hrun
        rw [Nat.zero_add, hwseq] at hfw hlog hrun
        refine ⟨buf', w', hb', ?_, ?_, ?_⟩
        · rw [hfw, hdiv]
          simp only [fwrite]
          omega
        · rw [hlog, hdiv, List.replicate_succ']
          simp only [fwrite, Nat.min_eq_right (hfull _ _), List.append_assoc]
          congr 1
          rw [← List.replicate_succ', List.replicate_succ]
          rfl
        · intro fuel hfuel
          obtain ⟨f, rfl⟩ : ∃ f, fuel = f + 1 := ⟨fuel - 1, by omega⟩
          rw [hwseq] at h1 hiter
          simp only [curl_cb_loop, if_pos hr, hiter, if_pos h1, hres, ne_eq,
            not_true_eq_false, if_false]
          rw [hrun f (by omega), hmod]
      · have hwseq : write_size remain_size cur = remain_size := by omega
        have hlt : cur + remain_size < DOWNLOAD_BUFFER_SIZE := by omega
        obtain ⟨hmod, hdiv⟩ := no_flush_arith cur remain_size hlt
        refine ⟨iter_buf data total_size remain_size cur buf, w, hblen, ?_, ?_, ?_⟩
        · rw [hdiv]; rfl
        · rw [hdiv]; simp
        · intro fuel hfuel
          obtain ⟨f, rfl⟩ : ∃ f, fuel = f + 2 := ⟨fuel - 2, by omega⟩
          rw [hwseq] at h1
          simp only [curl_cb_loop, if_pos hr, hiter, hwseq, if_neg h1, Nat.sub_self,
            gt_iff_lt, lt_self_iff_false, if_false, hmod]
    · have hr0 : remain_size = 0 := by omega
      subst hr0
      obtain ⟨hmod, hdiv⟩ := no_flush_arith cur 0 hcur
      refine ⟨buf, w, hlen, ?_, ?_, ?_⟩
      · rw [hdiv]; rfl
      · rw [hdiv]; simp
      · intro fuel hfuel
        obtain ⟨f, rfl⟩ : ∃ f, fuel = f + 1 := ⟨fuel - 1, by omega⟩
        simp only [curl_cb_loop, gt_iff_lt, lt_self_iff_false, if_false, Nat.add_zero,
          Nat.mod_eq_of_lt hcur]

/-- C1: streaming to disk preserves the body byte for byte. For a call whose
destination file was opened and whose file writes all write what they are asked to,
the destination file holds, right after the end-of-call flush of `http_request`,
exactly the concatenation of the chunks handed to `_curl_cb`, in arrival order,
whatever their sizes; so the file is non-empty exactly when some chunk is. When no
callback fails these chunks are all the body chunks of the exchange. The call
returns, and when the final status is 200 the file is left on disk with that
content. -/
theorem stream_to_disk_preserves_body (env : Env) (rq : Request) (w : World) (path : String)
    (hpath : rq.download_file_path = some path) (hopen : env.fopen_wb_ok path = true)
    (hfull : FullWrites env) :
    ∃ d w₀ resp m₁ w₁ m₂ w₂ out,
      http_open env rq data_init w = OpenResult.ok d w₀ ∧
      http_exchange env rq response_init d w₀ = some (resp, m₁, w₁) ∧
      http_flush env m₁ w₁ = some (m₂, w₂) ∧
      w₂.files path = some (delivered_body (calls_since w w₂)).flatten ∧
      (∀ c, w₂.files path = some c →
        (c ≠ [] ↔ ∃ chunk ∈ delivered_body (calls_since w w₂), chunk ≠ [])) ∧
      (env.curl_easy_init_ok = true → AllocsOk env.events →
        delivered_body (calls_since w w₂) = body_chunks env.events) ∧
      http_request env rq w = some out ∧
      (∃ r, out.result = some r ∧ r.status = resp.status) ∧
      (resp.status = 200 →
        out.world.files path = some (delivered_body (calls_since w w₂)).flatten) := by
  obtain ⟨resp, m₁, w₁, l, hex, hpost, _, hinit⟩ := http_exchange_spec env rq response_init
    (data_open env path) (world_open path w) (memInv_open env path)
  obtain ⟨w₂, lf, c, hfl, hlog, hlf, hc, hcf, _, hreq⟩ :=
    http_request_file env rq w path hpath hopen resp m₁ w₁ l hex hpost
  have hdel : delivered_body (calls_since w w₂) = delivered_body l := by
    rw [calls_since_eq w w₂ _ hlog, delivered_body_flush path l lf hlf]
  have hfile : w₂.files path = some (delivered_body (calls_since w w₂)).flatten := by
    rw [hc, hdel, hcf hfull]
  refine ⟨_, _, resp, m₁, w₁, _, w₂, _, http_open_ok env rq w path hpath hopen, hex, hfl,
    hfile, ?_, ?_, hreq, ?_, ?_⟩
  · intro c' hc'
    rw [hfile] at hc'
    cases hc'
    simp [List.flatten_eq_nil_iff]
  · intro hi ha
    obtain ⟨aborted, res, wp, _, _, _, _, hd, hab⟩ := hinit hi
    rw [hdel]
    exact (hd (hab ha (Or.inr hfull))).2
  · by_cases hs : resp.status ≠ 200
    · simp only [outcome_file, if_pos hs]
      exact ⟨_, rfl, rfl⟩
    · simp only [outcome_file, if_neg hs]
      exact ⟨_, rfl, rfl⟩
  · intro hs
    simp only [outcome_file, hs, ne_eq, not_true_eq_false, if_false]
    exact hfile

/-- C1 at a concrete call: the hypotheses hold for a download to `out.bin` with
succeeding writes, and the call returns. -/
theorem stream_to_disk_preserves_body_witness :
    (rq_download.download_file_path = some "out.bin" ∧
      env_ok.fopen_wb_ok "out.bin" = true ∧ FullWrites env_ok) ∧
    ∃ out w₂, http_request env_ok rq_download world_empty = some out ∧
      w₂.files "out.bin" = some (delivered_body (calls_since world_empty w₂)).flatten ∧
      delivered_body (calls_since world_empty w₂) = [[1, 2, 3], [4]] := by
  refine ⟨⟨rfl, rfl, fun _ _ => Nat.le_refl _⟩, ?_⟩
  obtain ⟨_, _, _, _, _, _, w₂, out, _, _, _, hfile, _, hall, hreq, _, _⟩ :=
    stream_to_disk_preserves_body env_ok rq_download world_empty "out.bin" rfl rfl
      (fun _ _ => Nat.le_refl _)
  refine ⟨out, w₂, hreq, hfile, ?_⟩
  rw [hall rfl (by unfold AllocsOk; decide)]
  rfl

theorem take_length_append (c t : Bytes) : (c ++ t).take c.length = c := by
  simp

theorem readback_404 :
    ∃ out r, http_request env_404 rq_download world_empty = some out ∧
      out.result = some r ∧ r.status = 404 ∧ r.body = json_not_found ∧
      r.response = some (json_not_found ++ [0]) ∧ r.size = 21 ∧
      out.world.files "out.bin" = none := by
  obtain ⟨resp, m₁, w₁, l, hex, hpost, _, hinit⟩ := http_exchange_spec env_404 rq_download
    response_init (data_open env_404 "out.bin") (world_open "out.bin" world_empty)
    (memInv_open env_404 "out.bin")
  obtain ⟨w₂, lf, c, _, _, _, _, hcf, _, hreq⟩ :=
    http_request_file env_404 rq_download world_empty "out.bin" rfl rfl resp m₁ w₁ l hex hpost
  have hfull : FullWrites env_404 := fun _ _ => Nat.le_refl _
  have hall : AllocsOk env_404.events := by unfold AllocsOk; decide
  obtain ⟨aborted, res, wp, _, hres, hresp, _, hd, hab⟩ := hinit rfl
  have ha := hab hall (Or.inr hfull)
  have hc : c = json_not_found := by
    rw [hcf hfull, (hd ha).2]
    simp [body_chunks, env_404]
  have hst : resp.status = 404 := by
    rw [hresp, hres, ha]
    rfl
  have hne : resp.status ≠ 200 := by rw [hst]; decide
  subst hc
  simp only [outcome_file, if_pos hne] at hreq
  refine ⟨_, _, hreq, rfl, hst, ?_, rfl, ?_, ?_⟩
  · exact take_length_append json_not_found [0]
  · show json_not_found.length = 21
    decide
  · simp [remove]

/-- C2, refutation of the size stated for the spec's witness: for the 404 answer with
body `{"error":"not found"}` streamed to a destination file, `http_request` returns
status 404 and that body, the file is gone, and the body size is 21 bytes, not 18. -/
theorem readback_404_size_is_not_18 :
    ∃ out r, http_request env_404 rq_download world_empty = some out ∧
      out.result = some r ∧ r.status = 404 ∧ r.body = json_not_found ∧
      out.world.files "out.bin" = none ∧ r.size = 21 ∧ r.size ≠ 18 := by
  obtain ⟨out, r, hreq, hr, hst, hbody, _, hsize, hgone⟩ := readback_404
  refine ⟨out, r, hreq, hr, hst, hbody, hgone, hsize, ?_⟩
  rw [hsize]
  decide

/-- C2 as amended: recovery read-back. For a call whose destination file was opened
and whose file writes all succeed, if the status after the exchange is not 200 (an
HTTP status, a transport code or the client-init sentinel), the returned response
keeps that status and message, its body block is the whole content of the
destination file followed by a terminator, so the body is every byte handed to
`_curl_cb` in order and the size is the file's length, whatever was held in memory,
and the destination file no longer exists while other files are untouched. For the
spec's witness, a 404 with body `{"error":"not found"}`, the body size is 21 bytes. -/
theorem recovery_readback :
    (∀ (env : Env) (rq : Request) (w : World) (path : String),
      rq.download_file_path = some path → env.fopen_wb_ok path = true → FullWrites env →
      ∃ d w₀ resp m₁ w₁ m₂ w₂ c,
        http_open env rq data_init w = OpenResult.ok d w₀ ∧
        http_exchange env rq response_init d w₀ = some (resp, m₁, w₁) ∧
        http_flush env m₁ w₁ = some (m₂, w₂) ∧
        w₂.files path = some c ∧
        c = (delivered_body (calls_since w w₂)).flatten ∧
        (resp.status ≠ 200 →
          ∃ out r, http_request env rq w = some out ∧ out.result = some r ∧
            r.status = resp.status ∧ r.message = resp.message ∧
            r.response = some (c ++ [0]) ∧ r.body = c ∧ r.size = c.length ∧
            out.world.files path = none ∧
            ∀ p, p ≠ path → out.world.files p = w.files p)) ∧
    (∃ out r, http_request env_404 rq_download world_empty = some out ∧
      out.result = some r ∧ r.status = 404 ∧ r.body = json_not_found ∧ r.size = 21 ∧
      out.world.files "out.bin" = none) := by
  constructor
  · intro env rq w path hpath hopen hfull
    obtain ⟨resp, m₁, w₁, l, hex, hpost, _, _⟩ := http_exchange_spec env rq response_init
      (data_open env path) (world_open path w) (memInv_open env path)
    obtain ⟨w₂, lf, c, hfl, hlog, hlf, hc, hcf, hoth, hreq⟩ :=
      http_request_file env rq w path hpath hopen resp m₁ w₁ l hex hpost
    have hdel : delivered_body (calls_since w w₂) = delivered_body l := by
      rw [calls_since_eq w w₂ _ hlog, delivered_body_flush path l lf hlf]
    refine ⟨_, _, resp, m₁, w₁, _, w₂, c, http_open_ok env rq w path hpath hopen, hex, hfl, hc,
      by rw [hdel, hcf hfull], ?_⟩
    intro hs
    simp only [outcome_file, if_pos hs] at hreq
    refine ⟨_, _, hreq, rfl, rfl, rfl, rfl, ?_, rfl, ?_, ?_⟩
    · exact take_length_append c [0]
    · simp [remove]
    · intro p hp
      simp [remove, hp, hoth p hp]
  · obtain ⟨out, r, hreq, hr, hst, hbody, _, hsize, hgone⟩ := readback_404
    exact ⟨out, r, hreq, hr, hst, hbody, hsize, hgone⟩

/-- C2 at a concrete call: the hypotheses of the read-back hold for the 404 answer,
and the returned body is the file content. -/
theorem recovery_readback_witness :
    (rq_download.download_file_path = some "out.bin" ∧
      env_404.fopen_wb_ok "out.bin" = true ∧ FullWrites env_404) ∧
    ∃ w₂ c, w₂.files "out.bin" = some c ∧
      c = (delivered_body (calls_since world_empty w₂)).flatten := by
  refine ⟨⟨rfl, rfl, fun _ _ => Nat.le_refl _⟩, ?_⟩
  obtain ⟨_, _, _, _, _, _, w₂, c, _, _, _, hc, hcd, _⟩ :=
    recovery_readback.1 env_404 rq_download world_empty "out.bin" rfl rfl
      (fun _ _ => Nat.le_refl _)
  exact ⟨w₂, c, hc, hcd⟩

/-- C3, the code at the failing input: in a download to `out.bin` the body arrives as
a chunk of `DOWNLOAD_BUFFER_SIZE - 100` bytes and a chunk of 100 bytes. The second
invocation of `_curl_cb` starts with the cursor at `DOWNLOAD_BUFFER_SIZE - 100`, fills
the buffer and flushes it; the `fwrite` writes 100 of the 524288 bytes, and `_curl_cb`
returns 100, which is the size of the chunk it was given. The transport therefore
sees no error: `http_request` returns status 200 and leaves a file of 100 bytes for a
body of 524288 bytes. -/
theorem short_write_returns_chunk_size :
    ∃ mem mem' out r c,
      mem.download_file_fd = some "out.bin" ∧
      mem.current_buf_size = DOWNLOAD_BUFFER_SIZE - 100 ∧
      (∀ w, ∃ w', _curl_cb env_short (List.replicate 100 9) true mem w = some (100, mem', w') ∧
        w'.log = w.log ++ [ExtCall.fwrite "out.bin" DOWNLOAD_BUFFER_SIZE 100]) ∧
      (List.replicate 100 9 : Bytes).length = 100 ∧
      http_request env_short rq_download world_empty = some out ∧
      out.result = some r ∧ r.status = 200 ∧
      out.world.files "out.bin" = some c ∧ c.length = 100 ∧
      (body_chunks env_short.events).flatten.length = DOWNLOAD_BUFFER_SIZE ∧
      delivered_body out.world.log = body_chunks env_short.events := by
  obtain ⟨b, c, hd, hb, hc, hcb⟩ := deliver_fill_short env_short
    (List.replicate (DOWNLOAD_BUFFER_SIZE - 100) 7) (List.replicate 100 9) true true
    (data_open env_short "out.bin")
    { world_open "out.bin" world_empty with
      log := (world_open "out.bin" world_empty).log ++ [ExtCall.curl_easy_init true] ++
        [ExtCall.curl_easy_perform (curl_configure rq_download {})] }
    "out.bin" _ rfl rfl (List.length_replicate _ _)
    (by rw [List.length_replicate]; decide) (by rw [List.length_replicate]; decide)
    (by simp only [List.length_replicate]; decide)
    (by rw [List.length_replicate]; decide)
    (fun _ => (List.length_replicate _ _).symm)
  simp only [List.length_replicate] at hd hc hcb
  have hex := http_exchange_of_deliver env_short rq_download response_init
    (data_open env_short "out.bin") (world_open "out.bin" world_empty) false _ _ rfl hd
  have hreq := http_request_eq env_short rq_download world_empty _ _ _ _ _ _ _ _ _
    (http_open_ok env_short rq_download world_empty "out.bin" rfl rfl) hex
    (http_flush_empty env_short _ _ "out.bin" b rfl rfl rfl)
    (http_recover_200 rq_download _ _)
  refine ⟨_, _, _, _, c, ?_, ?_, fun w => ⟨_, hcb w, rfl⟩, List.length_replicate _ _, hreq,
    rfl, rfl, ?_, hc, ?_, ?_⟩
  · rfl
  · simp [data_open, data_init]
  · simp [world_open]
  · simp only [body_chunks, env_short, List.filterMap_cons, List.filterMap_nil, List.flatten,
      List.length_append, List.length_replicate, List.length_nil]
    decide
  · simp only [delivered_body, body_chunks, env_short, world_open, world_empty,
      List.filterMap_append, List.filterMap_cons, List.filterMap_nil, List.nil_append,
      List.append_nil, List.singleton_append]

/-- C4, refutation: for a PUT with a body and no upload, the handle `http_request`
runs the exchange with carries no request method at all; it is the very handle
configured for a GET, so the request goes out as GET, not with the caller's
method. -/
theorem put_is_issued_as_get :
    (curl_configure rq_put {}).customrequest = none ∧
    curl_configure rq_put {} = curl_configure rq_get {} ∧
    wire_method (curl_configure rq_put {}) = "GET" ∧
    wire_method (curl_configure rq_put {}) ≠ rq_put.method ∧
    ∃ out, http_request env_ok rq_put world_empty = some out ∧
      ExtCall.curl_easy_perform (curl_configure rq_get {}) ∈ calls_since world_empty out.world := by
  refine ⟨rfl, rfl, rfl, by decide, ?_⟩
  obtain ⟨out, hreq, hmem⟩ := http_request_performs env_ok rq_put world_empty rfl
    (by intro p hp; cases hp)
  exact ⟨out, hreq, hmem⟩

/-- C4 as amended: Request Builder rule 4. For every request without a multipart
upload whose method is not "POST", the handle configured by `http_request` carries
no request method, no raw body and no multipart body, whatever the method and body
arguments are: the configuration does not depend on them, and the request is issued
with the transport's default method GET (the caller's method only when that is
"GET"). This is the handle `http_request` runs the exchange with. -/
theorem non_post_sets_no_method_no_body (rq : Request)
    (hup : rq.file_to_upload_name = none) (hm : rq.method ≠ "POST") :
    (curl_configure rq {}).customrequest = none ∧
    (curl_configure rq {}).copypostfields = none ∧
    (curl_configure rq {}).mimepost = none ∧
    wire_method (curl_configure rq {}) = "GET" ∧
    (∀ (m : String) (b : Option String), m ≠ "POST" →
      curl_configure { rq with method := m, body := b } {} = curl_configure rq {}) ∧
    (∀ (env : Env) (w : World), env.curl_easy_init_ok = true →
      (∀ p, rq.download_file_path = some p → env.fopen_wb_ok p = true) →
      ∃ out, http_request env rq w = some out ∧
        ExtCall.curl_easy_perform (curl_configure rq {}) ∈ calls_since w out.world) := by
  have hreq : ∀ (m : String) (b : Option String), m ≠ "POST" → ∀ c,
      curl_set_request { rq with method := m, body := b } c = c := by
    intro m b hmb c
    simp only [curl_set_request, hup, hmb, if_false]
  have hself : ∀ c, curl_set_request rq c = c := by
    intro c
    simp only [curl_set_request, hup, hm, if_false]
  obtain ⟨h₁, h₂, h₃⟩ := curl_configure_request rq
  rw [hself] at h₁ h₂ h₃
  refine ⟨h₂, h₃, h₁, ?_, ?_,
    fun env w hinit hopen => http_request_performs env rq w hinit hopen⟩
  · simp only [wire_method, h₁, h₂, h₃]
    rfl
  · intro m b hmb
    exact curl_configure_congr rq { rq with method := m, body := b }
      (fun c => by rw [hreq m b hmb c, hself c]) rfl rfl rfl rfl rfl rfl

/-- C4 at a concrete request: a DELETE without upload satisfies the hypotheses and
its handle carries no method. -/
theorem non_post_sets_no_method_no_body_witness :
    (({ rq_get with method := "DELETE" } : Request).file_to_upload_name = none ∧
      ({ rq_get with method := "DELETE" } : Request).method ≠ "POST") ∧
    (curl_configure { rq_get with method := "DELETE" } {}).customrequest = none :=
  ⟨⟨rfl, by decide⟩,
    (non_post_sets_no_method_no_body { rq_get with method := "DELETE" } rfl (by decide)).1⟩

/-- C5: file-open failure is the only null result. Every call of `http_request`
returns; the returned pointer is `NULL` exactly when a destination path is given and
`fopen` fails on it. In that case the only call made is that `fopen`: no buffer is
allocated, no handle is created, no exchange is run, no file is touched, and the
response object carrying the sentinel -2 is left behind unreturned. In
every other case, client-initialisation failure (status -3) and transport failure
included, the result is a response whose header and body blocks are well formed
with their recorded lengths. -/
theorem null_only_on_open_failure (env : Env) (rq : Request) (w : World) :
    ∃ out, http_request env rq w = some out ∧
      (out.result = none ↔
        ∃ p, rq.download_file_path = some p ∧ env.fopen_wb_ok p = false) ∧
      (out.result = none →
        (∃ p, calls_since w out.world = [ExtCall.fopen_wb p false]) ∧
        out.world.files = w.files ∧
        out.leaked.map (fun r => r.status) = some (-2) ∧
        ∀ c ∈ calls_since w out.world,
          (∀ n, c ≠ ExtCall.malloc n) ∧ (∀ ok, c ≠ ExtCall.curl_easy_init ok) ∧
          (∀ h, c ≠ ExtCall.curl_easy_perform h)) ∧
      (∀ r, out.result = some r →
        BlockOk r.header r.header_size ∧ BlockOk r.response r.size ∧
        (env.curl_easy_init_ok = false → r.status = -3)) := by
  cases hpath : rq.download_file_path with
  | none =>
    obtain ⟨resp, m₁, w₁, l, hex, hpost, hfail, _⟩ := http_exchange_spec env rq response_init
      data_init w memInv_init
    refine ⟨_, http_request_memory env rq w hpath resp m₁ w₁ l hex hpost, ?_, ?_, ?_⟩
    · constructor
      · intro h; cases h
      · rintro ⟨p, hp, _⟩; cases hp
    · intro h; cases h
    · intro r hr
      cases hr
      refine ⟨hpost.inv.header, hpost.inv.response, fun hi => ?_⟩
      rw [(hfail hi).1]
  | some path =>
    cases hopen : env.fopen_wb_ok path with
    | false =>
      refine ⟨{ result := none,
                leaked := some { response_init with status := -2, message := "创建文件失败" },
                world := { w with log := w.log ++ [ExtCall.fopen_wb path false] } }, ?_, ?_, ?_, ?_⟩
      · simp only [http_request, http_open_failed env rq w path hpath hopen]
      · exact ⟨fun _ => ⟨path, rfl, hopen⟩, fun _ => rfl⟩
      · intro _
        have hl : calls_since w { w with log := w.log ++ [ExtCall.fopen_wb path false] }
            = [ExtCall.fopen_wb path false] := calls_since_eq _ _ _ rfl
        refine ⟨⟨path, hl⟩, rfl, rfl, ?_⟩
        intro c hc
        rw [hl, List.mem_singleton] at hc
        subst hc
        exact ⟨fun _ h => (by cases h), fun _ h => (by cases h), fun _ h => (by cases h)⟩
      · intro r hr; cases hr
    | true =>
      obtain ⟨resp, m₁, w₁, l, hex, hpost, hfail, _⟩ := http_exchange_spec env rq response_init
        (data_open env path) (world_open path w) (memInv_open env path)
      obtain ⟨w₂, lf, c, _, _, _, _, _, _, hreq⟩ :=
        http_request_file env rq w path hpath hopen resp m₁ w₁ l hex hpost
      refine ⟨_, hreq, ?_, ?_, ?_⟩
      · constructor
        · intro h
          by_cases hs : resp.status ≠ 200
          · simp [outcome_file, hs] at h
          · simp [outcome_file, hs] at h
        · rintro ⟨p, hp, hf⟩
          cases hp
          rw [hopen] at hf
          cases hf
      · intro h
        by_cases hs : resp.status ≠ 200
        · simp [outcome_file, hs] at h
        · simp [outcome_file, hs] at h
      · intro r hr
        have hst : r.status = resp.status := by
          by_cases hs : resp.status ≠ 200
          · simp only [outcome_file, if_pos hs, Option.some.injEq] at hr
            rw [← hr]
          · simp only [outcome_file, if_neg hs, Option.some.injEq] at hr
            rw [← hr]
        refine ⟨?_, ?_, fun hi => by rw [hst, (hfail hi).1]⟩
        · by_cases hs : resp.status ≠ 200
          · simp only [outcome_file, if_pos hs, Option.some.injEq] at hr
            rw [← hr]
            exact hpost.inv.header
          · simp only [outcome_file, if_neg hs, Option.some.injEq] at hr
            rw [← hr]
            exact hpost.inv.header
        · by_cases hs : resp.status ≠ 200
          · simp only [outcome_file, if_pos hs, Option.some.injEq] at hr
            rw [← hr]
            exact ⟨by simp, by simp⟩
          · simp only [outcome_file, if_neg hs, Option.some.injEq] at hr
            rw [← hr]
            exact rfl

/-- C6: client-init failure. When `curl_easy_init` returns no handle (and the
destination file, if any, was opened), `http_request` runs no exchange and returns a
response with status -3, different from the file-open sentinel -2 and from the
initial value -1, a non-empty message and no headers. The file cleanup still
happens: with a destination path the calls made are exactly `fopen`, the buffer
allocation, the failed `curl_easy_init`, the release of the buffer, `fclose` and
`remove`, with no `fwrite`; the empty file is read back as a body of length 0 (a
block holding only the terminator) and no longer exists. Without a destination path
the body is `NULL` with size 0 and no file is touched. -/
theorem client_init_failure (env : Env) (rq : Request) (w : World)
    (hinit : env.curl_easy_init_ok = false)
    (hopen : ∀ p, rq.download_file_path = some p → env.fopen_wb_ok p = true) :
    ∃ out r, http_request env rq w = some out ∧ out.result = some r ∧
      r.status = -3 ∧ r.status ≠ -2 ∧ r.status ≠ response_init.status ∧
      r.message ≠ "" ∧ r.header = none ∧ r.header_size = 0 ∧
      (∀ h, ExtCall.curl_easy_perform h ∉ calls_since w out.world) ∧
      (rq.download_file_path = none →
        r.response = none ∧ r.size = 0 ∧ out.world.files = w.files ∧
        calls_since w out.world = [ExtCall.curl_easy_init false]) ∧
      (∀ p, rq.download_file_path = some p →
        calls_since w out.world =
          [ExtCall.fopen_wb p true, ExtCall.malloc DOWNLOAD_BUFFER_SIZE,
            ExtCall.curl_easy_init false, ExtCall.free_buffer, ExtCall.fclose p,
            ExtCall.remove p] ∧
        r.response = some [0] ∧ r.size = 0 ∧ r.body = [] ∧
        out.world.files p = none ∧ ∀ q, q ≠ p → out.world.files q = w.files q) := by
  have hmsg : ("curl_easy_init 失败" : String) ≠ "" := by decide
  cases hpath : rq.download_file_path with
  | none =>
    have hreq := http_request_eq env rq w _ _ _ _ _ _ _ _ _ (http_open_none env rq w hpath)
      (http_exchange_init_failed env rq response_init data_init w hinit)
      (http_flush_memory env data_init _ rfl) (http_recover_none rq _ data_init _ hpath)
    have hl := calls_since_eq w { w with log := w.log ++ [ExtCall.curl_easy_init false] }
      [ExtCall.curl_easy_init false] rfl
    refine ⟨_, _, hreq, rfl, rfl, ?_, ?_, hmsg, rfl, rfl, ?_,
      fun _ => ⟨rfl, rfl, rfl, hl⟩, fun p hp => (by cases hp)⟩
    · show (-3 : Int) ≠ -2
      decide
    · show (-3 : Int) ≠ -1
      decide
    intro h hmem
    rw [hl, List.mem_singleton] at hmem
    cases hmem
  | some path =>
    have hreq := http_request_eq env rq w _ _ _ _ _ _ _ _ _
      (http_open_ok env rq w path hpath (hopen path hpath))
      (http_exchange_init_failed env rq response_init (data_open env path)
        (world_open path w) hinit)
      (http_flush_empty env (data_open env path) _ path _ rfl rfl rfl)
      (http_recover_file rq _ _ _ path [] hpath (by decide) (by simp [world_open]))
    have hl := calls_since_eq w
      (remove path { world_open path w with
        log := (world_open path w).log ++ [ExtCall.curl_easy_init false] ++
          [ExtCall.free_buffer, ExtCall.fclose path] })
      [ExtCall.fopen_wb path true, ExtCall.malloc DOWNLOAD_BUFFER_SIZE,
        ExtCall.curl_easy_init false, ExtCall.free_buffer, ExtCall.fclose path,
        ExtCall.remove path]
      (by simp [remove, world_open])
    refine ⟨_, _, hreq, rfl, rfl, ?_, ?_, hmsg, rfl, rfl, ?_,
      fun h => (by cases h), fun p hp => ?_⟩
    · show (-3 : Int) ≠ -2
      decide
    · show (-3 : Int) ≠ -1
      decide
    · intro h hmem
      rw [hl] at hmem
      simp at hmem
    · cases hp
      refine ⟨hl, rfl, rfl, rfl, by simp [remove], fun q hq => ?_⟩
      simp [remove, world_open, hq]

/-- C6 at a concrete call: a download to `out.bin` when no handle can be created. -/
theorem client_init_failure_witness :
    (env_no_handle.curl_easy_init_ok = false ∧
      ∀ p, rq_download.download_file_path = some p → env_no_handle.fopen_wb_ok p = true) ∧
    ∃ out r, http_request env_no_handle rq_download world_empty = some out ∧
      out.result = some r ∧ r.status = -3 ∧ r.size = 0 ∧ out.world.files "out.bin" = none := by
  refine ⟨⟨rfl, fun _ _ => rfl⟩, ?_⟩
  obtain ⟨out, r, hreq, hr, hst, _, _, _, _, _, _, _, hfile⟩ :=
    client_init_failure env_no_handle rq_download world_empty rfl (fun _ _ => rfl)
  obtain ⟨_, _, hsize, _, hgone, _⟩ := hfile "out.bin" rfl
  exact ⟨out, r, hreq, hr, hst, hsize, hgone⟩

/-- C7, refutation of the terminator for every sequence: when the sequence of body
chunks is empty (an answer without body) and no destination file is configured, the
body callback is never invoked, and `http_request` returns a body pointer that is
`NULL` with size 0: there is no byte one past the logical length. -/
theorem empty_body_has_no_terminator :
    ∃ out r, http_request env_empty_body rq_get world_empty = some out ∧
      out.result = some r ∧ r.status = 200 ∧
      body_chunks env_empty_body.events = [] ∧ delivered_body out.world.log = [] ∧
      r.size = 0 ∧ r.response = none ∧
      ¬ ∃ blk, r.response = some blk ∧ blk[r.size]? = some 0 := by
  obtain ⟨resp, m₁, w₁, l, hex, hpost, _, hi⟩ := http_exchange_spec env_empty_body rq_get
    response_init data_init world_empty memInv_init
  have hreq := http_request_memory env_empty_body rq_get world_empty rfl resp m₁ w₁ l hex hpost
  have halloc : AllocsOk env_empty_body.events := by unfold AllocsOk; decide
  obtain ⟨aborted, res, wp, _, hres, hresp, _, hd, hab⟩ := hi rfl
  have ha := hab halloc (Or.inl rfl)
  have hbody : delivered_body l = [] := (hd ha).2
  obtain ⟨hnone, hsize⟩ := hpost.mem_none rfl hbody
  have hst : resp.status = 200 := by
    rw [hresp, hres, ha]
    rfl
  have hlog : delivered_body w₁.log = [] := by
    rw [hpost.log, delivered_body_append, hbody]
    rfl
  refine ⟨_, _, hreq, rfl, hst, rfl, hlog, hsize, hnone, ?_⟩
  rintro ⟨blk, hblk, _⟩
  rw [show m₁.response = none from hnone] at hblk
  cases hblk

/-- C7 as amended: in-memory sinks accumulate exactly what arrives. Start from the
data block of a call, with or without destination file, and let the transport
invoke the callbacks on any sequence of header and body chunks, allocation never
failing. The header bytes afterwards are the concatenation, in arrival order, of
the chunks handed to `_curl_cb_header`, and `header_size` is the sum of their sizes.
Without destination file nothing aborts, every chunk is handed over, and the body
bytes are the concatenation of the body chunks with `size` the sum of their sizes.
Once a callback has been invoked at least once, its block is one byte longer than
the logical length and that last byte is 0; before the first invocation the block
is `NULL` with length 0. Each callback returns the size of the chunk it received. -/
theorem sinks_accumulate (env : Env) (rq : Request) (w : World) (d : HttpData) (w₀ : World)
    (evs : List CurlEvent)
    (hopen : http_open env rq data_init w = OpenResult.ok d w₀) (halloc : AllocsOk evs) :
    ∃ aborted mem' w', deliver env evs d w₀ = some (aborted, mem', w') ∧
      block_bytes mem'.header mem'.header_size
        = (delivered_header (calls_since w₀ w')).flatten ∧
      mem'.header_size = ((delivered_header (calls_since w₀ w')).map List.length).sum ∧
      (delivered_header (calls_since w₀ w') ≠ [] →
        ∃ blk, mem'.header = some blk ∧ blk.length = mem'.header_size + 1 ∧
          blk[mem'.header_size]? = some 0) ∧
      (delivered_header (calls_since w₀ w') = [] →
        mem'.header = none ∧ mem'.header_size = 0) ∧
      (rq.download_file_path = none →
        aborted = false ∧
        delivered_header (calls_since w₀ w') = header_chunks evs ∧
        delivered_body (calls_since w₀ w') = body_chunks evs ∧
        block_bytes mem'.response mem'.size = (body_chunks evs).flatten ∧
        mem'.size = ((body_chunks evs).map List.length).sum ∧
        (body_chunks evs ≠ [] →
          ∃ blk, mem'.response = some blk ∧ blk.length = mem'.size + 1 ∧
            blk[mem'.size]? = some 0) ∧
        (body_chunks evs = [] → mem'.response = none ∧ mem'.size = 0)) ∧
      (∀ (data : Bytes) (m : HttpData),
        ∃ m', _curl_cb_header env data true m = some (data.length, m')) ∧
      (∀ (data : Bytes) (m : HttpData) (v : World), m.download_file_fd = none →
        ∃ m', _curl_cb env data true m v = some (data.length, m', v)) := by
  have hd : MemInv d ∧ d.header = none ∧ d.header_size = 0 ∧ d.response = none ∧ d.size = 0 ∧
      (rq.download_file_path = none → d.download_file_fd = none) := by
    cases hpath : rq.download_file_path with
    | none =>
      rw [http_open_none env rq w hpath] at hopen
      cases hopen
      exact ⟨memInv_init, rfl, rfl, rfl, rfl, fun _ => rfl⟩
    | some path =>
      cases hok : env.fopen_wb_ok path with
      | false =>
        rw [http_open_failed env rq w path hpath hok] at hopen
        cases hopen
      | true =>
        rw [http_open_ok env rq w path hpath hok] at hopen
        cases hopen
        exact ⟨memInv_open env path, rfl, rfl, rfl, rfl, fun h => by cases h⟩
  obtain ⟨hinv, hh, hhs, hr, hrs, hmode⟩ := hd
  obtain ⟨aborted, mem', w', l, hdel, hpost, hcomplete, hab⟩ := deliver_spec env evs d w₀ hinv
  have hcs : calls_since w₀ w' = l := calls_since_eq w₀ w' l hpost.log
  have hhdr := hpost.hdr halloc
  rw [hh, hhs] at hhdr
  have hhdr' : block_bytes mem'.header mem'.header_size = (delivered_header l).flatten := by
    rw [hhdr]; rfl
  refine ⟨aborted, mem', w', hdel, by rw [hcs, hhdr'], ?_, ?_, ?_, ?_, ?_, ?_⟩
  · rw [hcs, ← List.length_flatten, ← hhdr', block_bytes_length _ _ hpost.inv.header]
  · intro hne
    rw [hcs] at hne
    exact blockOk_some _ _ hpost.inv.header (hpost.hdr_some halloc hne)
  · intro hnil
    rw [hcs] at hnil
    obtain ⟨a, b⟩ := hpost.hdr_none hnil
    exact ⟨a.trans hh, b.trans hhs⟩
  · intro hpath
    have hfd := hmode hpath
    have ha := hab halloc (Or.inl hfd)
    obtain ⟨hdh, hdb⟩ := hcomplete ha
    obtain ⟨hbody, hsome⟩ := hpost.mem_body hfd halloc
    rw [hr, hrs] at hbody
    have hbody' : block_bytes mem'.response mem'.size = (body_chunks evs).flatten := by
      rw [hbody, hdb]; rfl
    refine ⟨ha, by rw [hcs, hdh], by rw [hcs, hdb], hbody', ?_, ?_, ?_⟩
    · rw [← List.length_flatten, ← hbody', block_bytes_length _ _ hpost.inv.response]
    · intro hne
      rw [← hdb] at hne
      exact blockOk_some _ _ hpost.inv.response (hsome hne)
    · intro hnil
      rw [← hdb] at hnil
      obtain ⟨a, b⟩ := hpost.mem_none hfd hnil
      exact ⟨a.trans hr, b.trans hrs⟩
  · intro data m
    exact curl_cb_header_ret env data m
  · intro data m v hfd
    obtain ⟨m', he, _⟩ := curl_cb_memory_ret env data m v hfd
    exact ⟨m', he⟩

/-- C7 at a concrete call: a GET without destination file receiving a header line
and two body chunks. -/
theorem sinks_accumulate_witness :
    (http_open env_ok rq_get data_init world_empty = OpenResult.ok data_init world_empty ∧
      AllocsOk env_ok.events) ∧
    ∃ mem' w', deliver env_ok env_ok.events data_init world_empty = some (false, mem', w') ∧
      block_bytes mem'.response mem'.size = [1, 2, 3, 4] ∧ mem'.size = 4 := by
  have halloc : AllocsOk env_ok.events := by unfold AllocsOk; decide
  refine ⟨⟨rfl, halloc⟩, ?_⟩
  obtain ⟨aborted, mem', w', hdel, _, _, _, _, hmem, _, _⟩ :=
    sinks_accumulate env_ok rq_get world_empty data_init world_empty env_ok.events rfl halloc
  obtain ⟨ha, _, _, hbody, hsize, _, _⟩ := hmem rfl
  subst ha
  exact ⟨mem', w', hdel, hbody, hsize⟩

/-- C8: Request Builder rule 1. Whenever an upload field name is given, for every
method and every body argument, the handle configured by `http_request` has a
multipart body of exactly one part carrying that field name, and neither a forced
request method nor a raw body; the configuration does not depend on the method and
body arguments. With an in-memory buffer the part's data is that buffer with the
given length and its filename is the upload path; otherwise the part streams the
file named by the upload path. This is the handle `http_request` runs the exchange
with. -/
theorem multipart_overrides_method_and_body (rq : Request) (name : String)
    (hname : rq.file_to_upload_name = some name) :
    (∃ part, (curl_configure rq {}).mimepost = some [part] ∧ part.name = some name ∧
      (∀ buf, rq.data_to_upload = some buf →
        part.source = some (MimeSource.data buf rq.data_to_upload_len) ∧
        part.filename = rq.file_to_upload_path) ∧
      (rq.data_to_upload = none →
        part.source = some (MimeSource.filedata rq.file_to_upload_path))) ∧
    (curl_configure rq {}).customrequest = none ∧
    (curl_configure rq {}).copypostfields = none ∧
    (∀ (m : String) (b : Option String),
      curl_configure { rq with method := m, body := b } {} = curl_configure rq {}) ∧
    (∀ (env : Env) (w : World), env.curl_easy_init_ok = true →
      (∀ p, rq.download_file_path = some p → env.fopen_wb_ok p = true) →
      ∃ out, http_request env rq w = some out ∧
        ExtCall.curl_easy_perform (curl_configure rq {}) ∈ calls_since w out.world) := by
  obtain ⟨h₁, h₂, h₃⟩ := curl_configure_request rq
  refine ⟨?_, ?_, ?_, ?_, fun env w hinit hopen => http_request_performs env rq w hinit hopen⟩
  · cases hdata : rq.data_to_upload with
    | none =>
      refine ⟨{ name := some name, source := some (MimeSource.filedata rq.file_to_upload_path) },
        ?_, rfl, fun buf h => (by cases h), fun _ => rfl⟩
      rw [h₁]
      simp only [curl_set_request, hname, hdata]
    | some buf =>
      refine ⟨{ name := some name, filename := rq.file_to_upload_path,
                source := some (MimeSource.data buf rq.data_to_upload_len) },
        ?_, rfl, fun b h => ?_, fun h => (by cases h)⟩
      · rw [h₁]
        simp only [curl_set_request, hname, hdata]
      · cases h
        exact ⟨rfl, rfl⟩
  · rw [h₂]
    simp only [curl_set_request, hname]
  · rw [h₃]
    simp only [curl_set_request, hname]
  · intro m b
    exact curl_configure_congr rq { rq with method := m, body := b }
      (fun c => by simp only [curl_set_request, hname]) rfl rfl rfl rfl rfl rfl

/-- C8 at the spec's example: field `f`, buffer `{1, 2, 3}` of length 3 and filename
`x.bin`, on a POST with a body: the single part carries exactly these, and the bytes
copied into it are `{1, 2, 3}`. -/
theorem multipart_overrides_method_and_body_witness :
    rq_upload.file_to_upload_name = some "f" ∧
    (curl_configure rq_upload {}).mimepost =
      some [{ name := some "f", filename := some "x.bin",
              source := some (MimeSource.data [1, 2, 3] 3) }] ∧
    (MimeSource.data [1, 2, 3] 3).copied = some [1, 2, 3] ∧
    (curl_configure rq_upload {}).customrequest = none ∧
    (curl_configure rq_upload {}).copypostfields = none := by
  obtain ⟨_, hcr, hpf, _, _⟩ := multipart_overrides_method_and_body rq_upload "f" rfl
  exact ⟨rfl, rfl, rfl, hcr, hpf⟩

/-- C9: the transport result is reported without short-circuiting finalization.
When a handle was created (and the destination file, if any, was opened),
`http_request` runs `curl_easy_perform` and returns a response. If the result code
`res` of the transport is not `CURLE_OK`, the status is `res` and the message is
`curl_easy_strerror(res)`; if it is `CURLE_OK`, the status is the HTTP response code
and the message is empty. In both cases the header block and its length are those
the callbacks left in the data block, and without destination path so are the body
block and its length. The result code is the transport's own, or `CURLE_WRITE_ERROR`
when a callback aborted the transfer. -/
theorem transport_result_reported (env : Env) (rq : Request) (w : World)
    (hinit : env.curl_easy_init_ok = true)
    (hopen : ∀ p, rq.download_file_path = some p → env.fopen_wb_ok p = true) :
    ∃ d w₀ res m₁ wp out r,
      http_open env rq data_init w = OpenResult.ok d w₀ ∧
      curl_easy_perform env (curl_configure rq {}) d
        { w₀ with log := w₀.log ++ [ExtCall.curl_easy_init true] } = some (res, m₁, wp) ∧
      (res = env.result ∨ res = CURLE_WRITE_ERROR) ∧
      http_request env rq w = some out ∧ out.result = some r ∧
      (res ≠ CURLE_OK → r.status = res ∧ r.message = env.curl_easy_strerror res) ∧
      (res = CURLE_OK → r.status = env.response_code ∧ r.message = "") ∧
      r.header = m₁.header ∧ r.header_size = m₁.header_size ∧
      (rq.download_file_path = none → r.response = m₁.response ∧ r.size = m₁.size) := by
  have hresp : ∀ res : Nat,
      (res ≠ CURLE_OK → (response_of env response_init res).status = res ∧
        (response_of env response_init res).message = env.curl_easy_strerror res) ∧
      (res = CURLE_OK → (response_of env response_init res).status = env.response_code ∧
        (response_of env response_init res).message = "") := by
    intro res
    constructor
    · intro h
      unfold response_of
      rw [if_pos h]
      exact ⟨rfl, rfl⟩
    · intro h
      unfold response_of
      rw [if_neg (not_not.mpr h)]
      exact ⟨rfl, rfl⟩
  cases hpath : rq.download_file_path with
  | none =>
    obtain ⟨resp, m₁, w₁, l, hex, hpost, _, hi⟩ := http_exchange_spec env rq response_init
      data_init w memInv_init
    obtain ⟨aborted, res, wp, hperf, hres, hr, _, _, _⟩ := hi hinit
    subst hr
    refine ⟨_, _, res, m₁, wp, _, _, http_open_none env rq w hpath, hperf, ?_,
      http_request_memory env rq w hpath _ m₁ w₁ l hex hpost, rfl, (hresp res).1, (hresp res).2,
      rfl, rfl, fun _ => ⟨rfl, rfl⟩⟩
    cases aborted
    · exact Or.inl hres
    · exact Or.inr hres
  | some path =>
    obtain ⟨resp, m₁, w₁, l, hex, hpost, _, hi⟩ := http_exchange_spec env rq response_init
      (data_open env path) (world_open path w) (memInv_open env path)
    obtain ⟨aborted, res, wp, hperf, hres, hr, _, _, _⟩ := hi hinit
    obtain ⟨w₂, lf, c, _, _, _, _, _, _, hreq⟩ :=
      http_request_file env rq w path hpath (hopen path hpath) resp m₁ w₁ l hex hpost
    have hor : res = env.result ∨ res = CURLE_WRITE_ERROR := by
      cases aborted
      · exact Or.inl hres
      · exact Or.inr hres
    subst hr
    by_cases hs : (response_of env response_init res).status ≠ 200
    · simp only [outcome_file, if_pos hs] at hreq
      exact ⟨_, _, res, m₁, wp, _, _, http_open_ok env rq w path hpath (hopen path hpath),
        hperf, hor, hreq, rfl, (hresp res).1, (hresp res).2, rfl, rfl, fun h => (by cases h)⟩
    · simp only [outcome_file, if_neg hs] at hreq
      exact ⟨_, _, res, m₁, wp, _, _, http_open_ok env rq w path hpath (hopen path hpath),
        hperf, hor, hreq, rfl, (hresp res).1, (hresp res).2, rfl, rfl, fun h => (by cases h)⟩

/-- C9 at a concrete call: a GET whose transport fails to connect returns the
transport's code 7 as status. -/
theorem transport_result_reported_witness :
    (env_connect_failed.curl_easy_init_ok = true ∧
      ∀ p, rq_get.download_file_path = some p → env_connect_failed.fopen_wb_ok p = true) ∧
    ∃ out r, http_request env_connect_failed rq_get world_empty = some out ∧
      out.result = some r ∧ r.status = 7 ∧ r.message = "error" := by
  refine ⟨⟨rfl, fun _ _ => rfl⟩, ?_⟩
  obtain ⟨d, w₀, res, m₁, wp, out, r, hop, hperf, _, hreq, hr, hfail, _, _, _, _⟩ :=
    transport_result_reported env_connect_failed rq_get world_empty rfl (fun _ _ => rfl)
  rw [http_open_none env_connect_failed rq_get world_empty rfl] at hop
  cases hop
  have h7 : res = 7 := by
    simp only [curl_easy_perform, env_connect_failed, deliver, Option.some.injEq,
      Prod.mk.injEq] at hperf
    exact hperf.1.symm
  subst h7
  obtain ⟨hst, hmsg⟩ := hfail (by decide)
  exact ⟨out, r, hreq, hr, hst, hmsg⟩

/-- C10: the cursor of the transfer buffer stays within the capacity.
(1) From a cursor within the capacity, the bytes one pass of the copy loop copies
end at or before the capacity. (2) Such a pass is defined, with the copy inside the
buffer, and leaves the cursor below the capacity: it is reset to 0 when the copy
reaches the capacity, whether the flush succeeds or falls short, and is the end of
the copy otherwise. (3) Every invocation of `_curl_cb`, for a chunk of any size and
any results of `fwrite`, returns and leaves the cursor within the capacity. (4) In
a call of `http_request` the cursor starts at 0, is below the capacity after the
callbacks have run on any sequence of chunks and after the exchange, and is 0 after
the end-of-call flush. -/
theorem cursor_within_capacity :
    (∀ remain_size cur : Nat, cur ≤ DOWNLOAD_BUFFER_SIZE →
      cur + write_size remain_size cur ≤ DOWNLOAD_BUFFER_SIZE) ∧
    (∀ (env : Env) (data : Bytes) (total_size : Nat) (fd : String) (remain_size : Nat)
      (mem : HttpData) (w : World) (buf : Bytes),
      mem.download_buffer = some buf → buf.length = DOWNLOAD_BUFFER_SIZE →
      mem.current_buf_size ≤ DOWNLOAD_BUFFER_SIZE →
      ∃ res, curl_cb_iter env data total_size fd remain_size mem w = some res ∧
        res.cursor < DOWNLOAD_BUFFER_SIZE ∧
        (mem.current_buf_size + write_size remain_size mem.current_buf_size
          = DOWNLOAD_BUFFER_SIZE → res.cursor = 0) ∧
        (mem.current_buf_size + write_size remain_size mem.current_buf_size
          ≠ DOWNLOAD_BUFFER_SIZE →
          res.cursor = mem.current_buf_size + write_size remain_size mem.current_buf_size)) ∧
    (∀ (env : Env) (data : Bytes) (ok : Bool) (mem : HttpData) (w : World),
      mem.current_buf_size ≤ DOWNLOAD_BUFFER_SIZE →
      (∀ fd, mem.download_file_fd = some fd →
        ∃ buf, mem.download_buffer = some buf ∧ buf.length = DOWNLOAD_BUFFER_SIZE) →
      ∃ r mem' w', _curl_cb env data ok mem w = some (r, mem', w') ∧
        mem'.current_buf_size ≤ DOWNLOAD_BUFFER_SIZE) ∧
    (∀ (env : Env) (rq : Request) (w : World) (d : HttpData) (w₀ : World),
      http_open env rq data_init w = OpenResult.ok d w₀ →
      d.current_buf_size = 0 ∧
      (∀ evs v, ∃ aborted mem' v', deliver env evs d v = some (aborted, mem', v') ∧
        mem'.current_buf_size < DOWNLOAD_BUFFER_SIZE) ∧
      ∃ resp m₁ w₁ m₂ w₂,
        http_exchange env rq response_init d w₀ = some (resp, m₁, w₁) ∧
        m₁.current_buf_size < DOWNLOAD_BUFFER_SIZE ∧
        http_flush env m₁ w₁ = some (m₂, w₂) ∧ m₂.current_buf_size = 0) := by
  refine ⟨?_, ?_, ?_, ?_⟩
  · intro remain_size cur hcur
    rw [write_size_eq remain_size cur hcur]
    omega
  · intro env data total_size fd remain_size mem w buf hbuf hlen hcur
    have hws := write_size_eq remain_size mem.current_buf_size hcur
    have hcap : 0 < DOWNLOAD_BUFFER_SIZE := by decide
    rw [curl_cb_iter_eq env data total_size fd remain_size mem w buf hbuf hlen hcur]
    refine ⟨_, rfl, ?_⟩
    by_cases h1 : mem.current_buf_size + write_size remain_size mem.current_buf_size
        = DOWNLOAD_BUFFER_SIZE
    · simp only [if_pos h1]
      split
      · exact ⟨hcap, fun _ => rfl, fun h => absurd h1 h⟩
      · exact ⟨hcap, fun _ => rfl, fun h => absurd h1 h⟩
    · simp only [if_neg h1]
      refine ⟨?_, fun h => absurd h h1, fun _ => rfl⟩
      show mem.current_buf_size + write_size remain_size mem.current_buf_size
        < DOWNLOAD_BUFFER_SIZE
      omega
  · intro env data ok mem w hcur hbuf
    cases hfd : mem.download_file_fd with
    | none =>
      cases ok with
      | false => exact ⟨_, _, _, curl_cb_memory_fail env data mem w hfd, hcur⟩
      | true =>
        obtain ⟨mem', he, hc⟩ := curl_cb_memory_ret env data mem w hfd
        exact ⟨_, _, _, he, by rw [hc]; exact hcur⟩
    | some fd =>
      obtain ⟨buf, hb, hl⟩ := hbuf fd hfd
      obtain ⟨r, mem', w', he, hpost⟩ := curl_cb_file env data ok mem w fd buf hfd hb hl hcur
      obtain ⟨b', c', _, hc', _, hm⟩ := hpost.frame
      refine ⟨r, mem', w', he, ?_⟩
      rw [hm]
      exact hc'
  · intro env rq w d w₀ hopen
    have hd : MemInv d ∧ d.current_buf_size = 0 := by
      cases hpath : rq.download_file_path with
      | none =>
        rw [http_open_none env rq w hpath] at hopen
        cases hopen
        exact ⟨memInv_init, rfl⟩
      | some path =>
        cases hok : env.fopen_wb_ok path with
        | false =>
          rw [http_open_failed env rq w path hpath hok] at hopen
          cases hopen
        | true =>
          rw [http_open_ok env rq w path hpath hok] at hopen
          cases hopen
          exact ⟨memInv_open env path, rfl⟩
    obtain ⟨hinv, hzero⟩ := hd
    refine ⟨hzero, ?_, ?_⟩
    · intro evs v
      obtain ⟨aborted, mem', v', l, hdel, hpost, _, _⟩ := deliver_spec env evs d v hinv
      exact ⟨aborted, mem', v', hdel, hpost.inv.cursor⟩
    · obtain ⟨resp, m₁, w₁, l, hex, hpost, _, _⟩ := http_exchange_spec env rq response_init
        d w₀ hinv
      cases hfd : m₁.download_file_fd with
      | none =>
        refine ⟨resp, m₁, w₁, m₁, w₁, hex, hpost.inv.cursor, http_flush_memory env m₁ w₁ hfd, ?_⟩
        rw [(hpost.mem_frame (hpost.fd_eq.symm.trans hfd)).2.1]
        exact hzero
      | some fd =>
        obtain ⟨w₂, lf, hfl, _⟩ := http_flush_file env m₁ w₁ fd hpost.inv hfd
        exact ⟨resp, m₁, w₁, _, w₂, hex, hpost.inv.cursor, hfl, rfl⟩

/-- C10 at a concrete state: with the cursor 100 bytes below the capacity and a
chunk of 300 bytes, the first pass copies 100 bytes, and the whole invocation leaves
the cursor within the capacity. -/
theorem cursor_within_capacity_witness :
    (DOWNLOAD_BUFFER_SIZE - 100 ≤ DOWNLOAD_BUFFER_SIZE) ∧
    (DOWNLOAD_BUFFER_SIZE - 100) + write_size 300 (DOWNLOAD_BUFFER_SIZE - 100)
      ≤ DOWNLOAD_BUFFER_SIZE ∧
    ∃ r mem' w', _curl_cb env_short (List.replicate 300 5) true
        { data_open env_short "out.bin" with current_buf_size := DOWNLOAD_BUFFER_SIZE - 100 }
        (world_open "out.bin" world_empty) = some (r, mem', w') ∧
      mem'.current_buf_size ≤ DOWNLOAD_BUFFER_SIZE := by
  have hle : DOWNLOAD_BUFFER_SIZE - 100 ≤ DOWNLOAD_BUFFER_SIZE := by decide
  refine ⟨hle, cursor_within_capacity.1 300 _ hle, ?_⟩
  exact cursor_within_capacity.2.2.1 env_short (List.replicate 300 5) true
    { data_open env_short "out.bin" with current_buf_size := DOWNLOAD_BUFFER_SIZE - 100 }
    (world_open "out.bin" world_empty) hle
    (fun fd _ => ⟨_, rfl, List.length_replicate _ _⟩)

/-- C11: the chunked-flush loop of `_curl_cb` terminates with an exactly determined
result. In streaming mode, from a cursor `c` below the capacity and for a chunk of
`n` bytes (`n = 0` included), when every file write succeeds: the loop returns `n`
for every amount of fuel from `n + 1` on, so `_curl_cb` returns `n`; it makes exactly
`(c + n) / DOWNLOAD_BUFFER_SIZE` calls, all of them `fwrite` calls for
`DOWNLOAD_BUFFER_SIZE` bytes that write `DOWNLOAD_BUFFER_SIZE` bytes, so the file
grows by that many full buffers; and it leaves the cursor at
`(c + n) % DOWNLOAD_BUFFER_SIZE`. -/
theorem flush_loop_exact (env : Env) (data : Bytes) (ok : Bool) (mem : HttpData) (w : World)
    (fd : String) (buf : Bytes) (hfd : mem.download_file_fd = some fd)
    (hbuf : mem.download_buffer = some buf) (hlen : buf.length = DOWNLOAD_BUFFER_SIZE)
    (hcur : mem.current_buf_size < DOWNLOAD_BUFFER_SIZE) (hfull : FullWrites env) :
    ∃ mem' w',
      _curl_cb env data ok mem w = some (data.length, mem', w') ∧
      (∀ fuel, data.length + 1 ≤ fuel →
        curl_cb_loop env data data.length fd fuel data.length mem w
          = some (data.length, mem', w')) ∧
      mem'.current_buf_size = (mem.current_buf_size + data.length) % DOWNLOAD_BUFFER_SIZE ∧
      w'.fwrites = w.fwrites + (mem.current_buf_size + data.length) / DOWNLOAD_BUFFER_SIZE ∧
      calls_since w w' =
        List.replicate ((mem.current_buf_size + data.length) / DOWNLOAD_BUFFER_SIZE)
          (ExtCall.fwrite fd DOWNLOAD_BUFFER_SIZE DOWNLOAD_BUFFER_SIZE) ∧
      (∀ c, w.files fd = some c → ∃ c', w'.files fd = some c' ∧
        c'.length = c.length +
          DOWNLOAD_BUFFER_SIZE *
            ((mem.current_buf_size + data.length) / DOWNLOAD_BUFFER_SIZE)) := by
  obtain ⟨buf', w', hb', hfw, hlog, hrun⟩ :=
    curl_cb_loop_exact env data data.length fd hfull data.length mem w buf hbuf hlen hcur
  have hcb : _curl_cb env data ok mem w = some (data.length,
      { mem with download_buffer := some buf',
                 current_buf_size :=
                   (mem.current_buf_size + data.length) % DOWNLOAD_BUFFER_SIZE }, w') := by
    simp only [_curl_cb, hfd, hrun (data.length + 2) (by omega)]
  refine ⟨_, w', hcb, hrun, rfl, hfw, calls_since_eq w w' _ hlog, ?_⟩
  intro c hc
  obtain ⟨r, m₂, w₂, he, hpost⟩ := curl_cb_file env data ok mem w fd buf hfd hbuf hlen
    (Nat.le_of_lt hcur)
  rw [hcb] at he
  simp only [Option.some.injEq, Prod.mk.injEq] at he
  obtain ⟨_, hm, hw⟩ := he
  subst hm hw
  have hpend := (hpost.full hfull).2
  simp only [pending, hc, hbuf, Nat.sub_self, List.drop_zero, Option.map_some'] at hpend
  cases hfile : w'.files fd with
  | none => rw [hfile] at hpend; cases hpend
  | some c' =>
    rw [hfile] at hpend
    simp only [Option.some.injEq] at hpend
    refine ⟨c', rfl, ?_⟩
    have hl := congrArg List.length hpend
    simp only [List.length_append, List.length_take, hb', hlen] at hl
    have hdm := Nat.div_add_mod (mem.current_buf_size + data.length) DOWNLOAD_BUFFER_SIZE
    have hmlt := Nat.mod_lt (mem.current_buf_size + data.length)
      (show 0 < DOWNLOAD_BUFFER_SIZE by decide)
    omega

/-- C11 at a concrete state: with the cursor 100 bytes below the capacity and
succeeding writes, a chunk of 300 bytes is consumed with one flush and leaves the
cursor at 200. -/
theorem flush_loop_exact_witness :
    ((({ data_open env_ok "out.bin" with
          current_buf_size := DOWNLOAD_BUFFER_SIZE - 100 } : HttpData).download_file_fd
        = some "out.bin") ∧
      DOWNLOAD_BUFFER_SIZE - 100 < DOWNLOAD_BUFFER_SIZE ∧ FullWrites env_ok) ∧
    ∃ mem' w', _curl_cb env_ok (List.replicate 300 5) true
        { data_open env_ok "out.bin" with current_buf_size := DOWNLOAD_BUFFER_SIZE - 100 }
        (world_open "out.bin" world_empty) = some (300, mem', w') ∧
      mem'.current_buf_size = 200 ∧
      w'.fwrites = 1 ∧
      calls_since (world_open "out.bin" world_empty) w' =
        [ExtCall.fwrite "out.bin" DOWNLOAD_BUFFER_SIZE DOWNLOAD_BUFFER_SIZE] := by
  have hlt : DOWNLOAD_BUFFER_SIZE - 100 < DOWNLOAD_BUFFER_SIZE := by decide
  have hfull : FullWrites env_ok := fun _ _ => Nat.le_refl _
  refine ⟨⟨rfl, hlt, hfull⟩, ?_⟩
  obtain ⟨mem', w', hcb, _, hcursor, hfw, hcalls, _⟩ :=
    flush_loop_exact env_ok (List.replicate 300 5) true
      { data_open env_ok "out.bin" with current_buf_size := DOWNLOAD_BUFFER_SIZE - 100 }
      (world_open "out.bin" world_empty) "out.bin" _ rfl rfl (List.length_replicate _ _)
      hlt hfull
  have hn : (List.replicate 300 5 : Bytes).length = 300 := List.length_replicate _ _
  rw [hn] at hcb hcursor hfw hcalls
  have hq : (DOWNLOAD_BUFFER_SIZE - 100 + 300) / DOWNLOAD_BUFFER_SIZE = 1 := by decide
  have hm : (DOWNLOAD_BUFFER_SIZE - 100 + 300) % DOWNLOAD_BUFFER_SIZE = 200 := by decide
  rw [hq] at hfw hcalls
  rw [hm] at hcursor
  exact ⟨mem', w', hcb, hcursor, hfw, hcalls⟩

end SaveCloud
